import Mathlib

/-!
Verification of the job-alerts pipeline (`job_bot_daily_excel.py`).

The Python source is shallowly embedded: JSON-shaped dynamic values become
the inductive `JVal`; Python truthiness, `dict.get`, `x or y`, `str()`,
`in` (substring), `.strip()`, `.lower()` become explicit Lean functions;
code that can raise (attribute/type errors on malformed data) returns
`Except String _`; the two network calls are parameters (a search oracle
and a detail-fetch oracle), with the detail calls recorded in a trace so
call-count properties can be stated.
-/

set_option maxHeartbeats 1000000

namespace JobBot

/-- A JSON-shaped Python value (the loosely-typed records the API returns). -/
inductive JVal where
  | null : JVal
  | bool : Bool → JVal
  | num : Int → JVal
  | str : String → JVal
  | arr : List JVal → JVal
  | obj : List (String × JVal) → JVal

mutual
/-- Decidable equality on `JVal`. -/
def JVal.decEq : (a b : JVal) → Decidable (a = b)
  | .null, .null => isTrue rfl
  | .bool a, .bool b =>
    if h : a = b then isTrue (by rw [h]) else isFalse (fun hh => h (by injection hh))
  | .num a, .num b =>
    if h : a = b then isTrue (by rw [h]) else isFalse (fun hh => h (by injection hh))
  | .str a, .str b =>
    if h : a = b then isTrue (by rw [h]) else isFalse (fun hh => h (by injection hh))
  | .arr xs, .arr ys =>
    match decEqListJ xs ys with
    | isTrue h => isTrue (by rw [h])
    | isFalse h => isFalse (fun hh => h (by injection hh))
  | .obj xs, .obj ys =>
    match decEqObjJ xs ys with
    | isTrue h => isTrue (by rw [h])
    | isFalse h => isFalse (fun hh => h (by injection hh))
  | .null, .bool _ | .null, .num _ | .null, .str _ | .null, .arr _ | .null, .obj _
  | .bool _, .null | .bool _, .num _ | .bool _, .str _ | .bool _, .arr _ | .bool _, .obj _
  | .num _, .null | .num _, .bool _ | .num _, .str _ | .num _, .arr _ | .num _, .obj _
  | .str _, .null | .str _, .bool _ | .str _, .num _ | .str _, .arr _ | .str _, .obj _
  | .arr _, .null | .arr _, .bool _ | .arr _, .num _ | .arr _, .str _ | .arr _, .obj _
  | .obj _, .null | .obj _, .bool _ | .obj _, .num _ | .obj _, .str _ | .obj _, .arr _ =>
    isFalse (by simp)

/-- Decidable equality on lists of `JVal`. -/
def decEqListJ : (a b : List JVal) → Decidable (a = b)
  | [], [] => isTrue rfl
  | [], _ :: _ => isFalse (by simp)
  | _ :: _, [] => isFalse (by simp)
  | x :: xs, y :: ys =>
    match JVal.decEq x y, decEqListJ xs ys with
    | isTrue h1, isTrue h2 => isTrue (by rw [h1, h2])
    | isFalse h1, _ => isFalse (fun hh => h1 (by injection hh))
    | _, isFalse h2 => isFalse (fun hh => h2 (by injection hh))

/-- Decidable equality on association lists of `JVal`. -/
def decEqObjJ : (a b : List (String × JVal)) → Decidable (a = b)
  | [], [] => isTrue rfl
  | [], _ :: _ => isFalse (by simp)
  | _ :: _, [] => isFalse (by simp)
  | (k, v) :: xs, (k2, v2) :: ys =>
    match decEq k k2, JVal.decEq v v2, decEqObjJ xs ys with
    | isTrue h0, isTrue h1, isTrue h2 => isTrue (by rw [h0, h1, h2])
    | isFalse h0, _, _ =>
      isFalse (fun hh => h0 (by injection hh with h3 h4; exact congrArg Prod.fst h3))
    | _, isFalse h1, _ =>
      isFalse (fun hh => h1 (by injection hh with h3 h4; exact congrArg Prod.snd h3))
    | _, _, isFalse h2 => isFalse (fun hh => h2 (by injection hh))
end

instance : DecidableEq JVal := JVal.decEq

instance {ε α : Type} [DecidableEq ε] [DecidableEq α] : DecidableEq (Except ε α) :=
  fun a b =>
    match a, b with
    | .ok x, .ok y =>
      if h : x = y then isTrue (by rw [h]) else isFalse (fun hh => h (by injection hh))
    | .error x, .error y =>
      if h : x = y then isTrue (by rw [h]) else isFalse (fun hh => h (by injection hh))
    | .ok _, .error _ => isFalse (fun hh => Except.noConfusion hh)
    | .error _, .ok _ => isFalse (fun hh => Except.noConfusion hh)

/-- Python truthiness of a `JVal`. -/
def truthy : JVal → Bool
  | .null => false
  | .bool b => b
  | .num n => n != 0
  | .str s => s != ""
  | .arr xs => !xs.isEmpty
  | .obj kvs => !kvs.isEmpty

/-- `d.get(k)` on a mapping (default `None`). -/
def pyGet (m : List (String × JVal)) (k : String) : JVal :=
  match m.lookup k with
  | some v => v
  | none => .null

/-- Python `x or y`: `y` when `x` is falsy. -/
def pyOr (x y : JVal) : JVal := if truthy x then x else y

/-- A single apostrophe character, used by `pyRepr` for string quoting. -/
def sq : String := (Char.ofNat 39).toString

mutual
/-- Python `str()` of a `JVal`. -/
def pyStr : JVal → String
  | .null => "None"
  | .bool true => "True"
  | .bool false => "False"
  | .num n => toString n
  | .str s => s
  | .arr xs => "[" ++ pyReprList xs ++ "]"
  | .obj kvs => "\x7b" ++ pyReprObj kvs ++ "\x7d"

/-- Python `repr()` of a `JVal` (used for elements inside containers). -/
def pyRepr : JVal → String
  | .str s => sq ++ s ++ sq
  | .null => "None"
  | .bool true => "True"
  | .bool false => "False"
  | .num n => toString n
  | .arr xs => "[" ++ pyReprList xs ++ "]"
  | .obj kvs => "\x7b" ++ pyReprObj kvs ++ "\x7d"

/-- Comma-joined reprs of list elements. -/
def pyReprList : List JVal → String
  | [] => ""
  | [x] => pyRepr x
  | x :: xs => pyRepr x ++ ", " ++ pyReprList xs

/-- Comma-joined `key: value` reprs of mapping entries. -/
def pyReprObj : List (String × JVal) → String
  | [] => ""
  | [(k, v)] => sq ++ k ++ sq ++ ": " ++ pyRepr v
  | (k, v) :: kvs => sq ++ k ++ sq ++ ": " ++ pyRepr v ++ ", " ++ pyReprObj kvs
end

/-- Substring test on character lists (Python `needle in hay`). -/
def hasSub (hay needle : List Char) : Bool :=
  hay.tails.any (fun t => needle.isPrefixOf t)

/-- Python `s.lower()` (ASCII case mapping). -/
def lowerL (cs : List Char) : List Char := cs.map Char.toLower

/-- Python `s.strip()`: drop whitespace from both ends. -/
def stripL (cs : List Char) : List Char :=
  ((cs.dropWhile Char.isWhitespace).reverse.dropWhile Char.isWhitespace).reverse

/-- `needle in hay` for strings (Python substring containment). -/
def strIn (needle hay : String) : Bool := hasSub hay.toList needle.toList

/-- Python `s.startswith(pre)`. -/
def strStarts (pre s : String) : Bool := pre.toList.isPrefixOf s.toList

/-- `d.get(k, default)` on a mapping. -/
def pyGetD (m : List (String × JVal)) (k : String) (d : JVal) : JVal :=
  match m.lookup k with
  | some v => v
  | none => d

/-- Lowercase a string the way Python `.lower()` does (ASCII). -/
def pyLower (s : String) : String := String.mk (lowerL s.toList)

/-- Python `s.strip().lower()`. -/
def pyStripLower (s : String) : String := String.mk (lowerL (stripL s.toList))

/-! ## Configuration and `validate_env` -/

/-- The four environment values read at module load. -/
structure Env where
  serpapi_key : Option String
  email_sender : Option String
  email_password : Option String
  email_receiver : Option String

/-- Truthiness of an `os.getenv` result (`None` and `""` are falsy). -/
def envTruthy : Option String → Bool
  | none => false
  | some s => s != ""

/-- `validate_env` (lines 41-45): raise `ValueError` when a secret is missing. -/
def validate_env (e : Env) : Except String Unit :=
  if !envTruthy e.serpapi_key then .error "SERPAPI_KEY missing (GitHub Secret)."
  else if !envTruthy e.email_sender || !envTruthy e.email_password ||
      !envTruthy e.email_receiver then
    .error "EMAIL_SENDER / EMAIL_PASSWORD / EMAIL_RECEIVER missing (GitHub Secrets)."
  else .ok ()

/-! ## Search client `serpapi_google_jobs` (lines 49-76)

The HTTP world is a function from attempt number (1-based) to the outcome of
that attempt's request.  `raise_for_status` raises `requests.HTTPError` for
statuses 400-599; that exception is a `requests.RequestException`, so it is
caught by the handler and retried like a transport failure. -/

/-- Outcome of one HTTP request: a status plus parsed JSON body, or a
network-level failure (`requests.RequestException` from the transport). -/
inductive HttpOutcome where
  | resp (status : Nat) (body : JVal)
  | netErr
deriving DecidableEq

def RETRY_STATUSES : List Nat := [429, 502, 503, 504]

/-- The retry loop of `serpapi_google_jobs`, from attempt `a` with the given
number of attempts remaining; returns the `jobs_results` value on a
non-error response, `[]` when attempts are exhausted, and an uncaught
`AttributeError` when a non-error body is not a mapping. -/
def serpFrom (rsp : Nat → HttpOutcome) (a : Nat) : Nat → Except String JVal
  | 0 => .ok (.arr [])
  | fuel + 1 =>
    match rsp a with
    | .netErr => serpFrom rsp (a + 1) fuel
    | .resp code body =>
      if code ∈ RETRY_STATUSES then serpFrom rsp (a + 1) fuel
      else if 400 ≤ code ∧ code < 600 then serpFrom rsp (a + 1) fuel
      else
        match body with
        | .obj kvs => .ok (pyOr (pyGetD kvs "jobs_results" (.arr [])) (.arr []))
        | _ => .error "AttributeError"

/-- `serpapi_google_jobs`: up to 5 attempts starting at attempt 1. -/
def serpapi_google_jobs (rsp : Nat → HttpOutcome) : Except String JVal :=
  serpFrom rsp 1 5

/-! ## Helpers (lines 107-219) -/

def ALLOWED_SOURCES : List String := ["indeed", "linkedin", "glassdoor", "ziprecruiter"]

/-- `normalize_source` (lines 107-121): map the free-text `via` value to one
of the four source names, or `""`.  Calling `.strip()` on a truthy non-string
raises `AttributeError`. -/
def normalize_source (via_value : JVal) : Except String String :=
  match pyOr via_value (.str "") with
  | .str v =>
    let s := pyStripLower v
    if strIn "indeed" s then .ok "Indeed"
    else if strIn "linkedin" s then .ok "LinkedIn"
    else if strIn "glassdoor" s then .ok "Glassdoor"
    else if strIn "ziprecruiter" s then .ok "ZipRecruiter"
    else .ok ""
  | _ => .error "AttributeError"

/-- `is_allowed_source` (lines 124-126). -/
def is_allowed_source (via_value : JVal) : Except String Bool :=
  match pyOr via_value (.str "") with
  | .str v =>
    let s := pyLower v
    .ok (ALLOWED_SOURCES.any (fun x => strIn x s))
  | _ => .error "AttributeError"

/-- Shared tail of the two apply-link extractors: `entry.get("link") or ""`,
then keep it only when it starts with `"http"`.  A non-mapping entry or a
truthy non-string link raises. -/
def linkFromEntry (x : JVal) : Except String String :=
  match x with
  | .obj kvs =>
    match pyOr (pyGet kvs "link") (.str "") with
    | .str link => .ok (if strStarts "http" link then link else "N/A")
    | _ => .error "AttributeError"
  | _ => .error "AttributeError"

/-- `safe_apply_link` (lines 129-134). -/
def safe_apply_link (job : List (String × JVal)) : Except String String :=
  match pyOr (pyGet job "related_links") (.arr []) with
  | .arr (x :: _) => linkFromEntry x
  | _ => .ok "N/A"

/-- `safe_apply_link_from_details` (lines 137-142). -/
def safe_apply_link_from_details (details : JVal) : Except String String :=
  match details with
  | .obj kvs =>
    match pyOr (pyGet kvs "apply_options") (.arr []) with
    | .arr (x :: _) => linkFromEntry x
    | _ => .ok "N/A"
  | _ => .error "AttributeError"

/-- The pay-marker test on one extension string (line 153). -/
def extPayMatch (item : String) : Bool :=
  strIn "$" item || strIn "hour" (pyLower item) || strIn "year" (pyLower item)

/-- The `for item in ext` scan of `safe_pay`: first string entry carrying a
pay marker. -/
def scanPay : List JVal → String
  | [] => "N/A"
  | .str item :: rest => if extPayMatch item then item else scanPay rest
  | _ :: rest => scanPay rest

/-- `safe_pay` (lines 145-155): structured salary first, else extension scan. -/
def safe_pay (job : List (String × JVal)) : String :=
  let de := pyOr (pyGet job "detected_extensions") (.obj [])
  let fromDe : Option String :=
    match de with
    | .obj kvs =>
      if truthy (pyGet kvs "salary") then some (pyStr (pyGet kvs "salary")) else none
    | _ => none
  match fromDe with
  | some s => s
  | none =>
    match pyOr (pyGet job "extensions") (.arr []) with
    | .arr xs => scanPay xs
    | _ => "N/A"

/-- `safe_pay_from_details` (lines 158-162). -/
def safe_pay_from_details (details : JVal) : Except String String :=
  match details with
  | .obj kvs =>
    match pyOr (pyGet kvs "detected_extensions") (.obj []) with
    | .obj de =>
      .ok (if truthy (pyGet de "salary") then pyStr (pyGet de "salary") else "N/A")
    | _ => .ok "N/A"
  | _ => .error "AttributeError"

/-- The recency-marker test on one extension string (lines 173-176). -/
def extTimeMatch (item : String) : Bool :=
  let low := pyLower item
  strIn "ago" low || strIn "today" low || strIn "yesterday" low || strIn "posted" low

/-- The `for item in ext` scan of `safe_time_posted`. -/
def scanTime : List JVal → String
  | [] => "N/A"
  | .str item :: rest => if extTimeMatch item then item else scanTime rest
  | _ :: rest => scanTime rest

/-- `safe_time_posted` (lines 165-178). -/
def safe_time_posted (job : List (String × JVal)) : String :=
  let de := pyOr (pyGet job "detected_extensions") (.obj [])
  let fromDe : Option String :=
    match de with
    | .obj kvs =>
      if truthy (pyGet kvs "posted_at") then some (pyStr (pyGet kvs "posted_at")) else none
    | _ => none
  match fromDe with
  | some s => s
  | none =>
    match pyOr (pyGet job "extensions") (.arr []) with
    | .arr xs => scanTime xs
    | _ => "N/A"

/-- `safe_time_posted_from_details` (lines 181-185). -/
def safe_time_posted_from_details (details : JVal) : Except String String :=
  match details with
  | .obj kvs =>
    match pyOr (pyGet kvs "detected_extensions") (.obj []) with
    | .obj de =>
      .ok (if truthy (pyGet de "posted_at") then pyStr (pyGet de "posted_at") else "N/A")
    | _ => .ok "N/A"
  | _ => .error "AttributeError"

/-- Digits of a decimal run to a number (`int(m.group(1))`). -/
def digitsToNat (ds : List Char) : Nat :=
  ds.foldl (fun acc c => acc * 10 + (c.toNat - 48)) 0

/-- Try the regex `(\d+)\s+LIT` anchored at the head of `cs`; the digit run
and the whitespace run are maximal, which is forced because both `\s` and
the literal's first character are not digits and the literal's first
character is not whitespace. -/
def matchNumAt (cs lit : List Char) : Option Nat :=
  let ds := cs.takeWhile Char.isDigit
  let rest := cs.dropWhile Char.isDigit
  let ws := rest.takeWhile Char.isWhitespace
  let rest2 := rest.dropWhile Char.isWhitespace
  if ds.isEmpty then none
  else if ws.isEmpty then none
  else if lit.isPrefixOf rest2 then some (digitsToNat ds) else none

/-- `re.search(r"(\d+)\s+LIT", s)`: leftmost match, returning the number. -/
def findNum : List Char → List Char → Option Nat
  | [], _ => none
  | c :: cs, lit =>
    match matchNumAt (c :: cs) lit with
    | some n => some n
    | none => findNum cs lit

/-- `posted_days` (lines 188-210). -/
def posted_days (time_posted : String) : Nat :=
  if time_posted = "" || time_posted = "N/A" then 999
  else
    let s := lowerL (stripL time_posted.toList)
    if hasSub s "just posted".toList || hasSub s "today".toList then 0
    else if hasSub s "yesterday".toList then 1
    else
      match findNum s "hour".toList with
      | some _ => 0
      | none =>
        match findNum s "day".toList with
        | some n => n
        | none =>
          match findNum s "week".toList with
          | some n => n * 7
          | none => 999

def FOOD_HINTS : List String :=
  ["food", "foods", "food manufacturing", "food processing", "plant", "production",
   "warehouse", "haccp", "sqf", "fsqa", "gmp", "sanitation", "usda", "fda",
   "meat", "poultry", "dairy", "bakery", "beverage", "produce"]

/-- `looks_food_industry` (lines 213-219). -/
def looks_food_industry (job : List (String × JVal)) : Bool :=
  let text := pyLower
    (pyStr (pyOr (pyGet job "title") (.str "")) ++ " " ++
     pyStr (pyOr (pyGet job "company_name") (.str "")) ++ " " ++
     pyStr (pyOr (pyGet job "description") (.str "")))
  FOOD_HINTS.any (fun h => strIn h text)

/-! ## Row normalizer (lines 222-254) -/

/-- The normalized row returned by `normalize_row`.  The four pass-through
fields keep whatever dynamic value the raw record held; the four extracted
fields are strings by construction. -/
structure Row where
  job_id : JVal
  title : JVal
  company_name : JVal
  pay : String
  time_posted : String
  location : JVal
  source : String
  apply_link : String
deriving DecidableEq

/-- The final dictionary literal of `normalize_row` (lines 245-254), with the
`x if x else "N/A"` guards. -/
def mkRow (job_id title company location : JVal) (pay tp source_norm link : String) : Row :=
  { job_id := job_id
    title := title
    company_name := company
    pay := if pay = "" then "N/A" else pay
    time_posted := if tp = "" then "N/A" else tp
    location := location
    source := if source_norm = "" then "N/A" else source_norm
    apply_link := if link = "" then "N/A" else link }

/-- The enrichment block of `normalize_row` (lines 238-243): re-extract each
field that is still `"N/A"` from the detail record, `or`-falling back to the
old value. -/
def enrich (details : JVal) (pay tp link : String) :
    Except String (String × String × String) :=
  Except.bind
    (if pay = "N/A" then
      Except.map (fun p => if p = "" then pay else p) (safe_pay_from_details details)
    else .ok pay) (fun pay2 =>
  Except.bind
    (if tp = "N/A" then
      Except.map (fun t => if t = "" then tp else t) (safe_time_posted_from_details details)
    else .ok tp) (fun tp2 =>
  Except.bind
    (if link = "N/A" then
      Except.map (fun l => if l = "" then link else l) (safe_apply_link_from_details details)
    else .ok link) (fun link2 =>
  .ok (pay2, tp2, link2))))

/-- `normalize_row` (lines 222-254).  `fetch` is `serpapi_google_jobs_listing`
as an oracle; the second component records the identifiers it was called
with (empty or a singleton). -/
def normalize_row (fetch : JVal → JVal) (job : List (String × JVal)) :
    Except String Row × List JVal :=
  let job_id := pyOr (pyGet job "job_id") (.str "N/A")
  let title := pyOr (pyGet job "title") (.str "N/A")
  let company := pyOr (pyGet job "company_name") (.str "N/A")
  let location := pyOr (pyGet job "location") (.str "N/A")
  match normalize_source (pyGet job "via") with
  | .error e => (.error e, [])
  | .ok source_norm =>
    let pay := safe_pay job
    let tp := safe_time_posted job
    match safe_apply_link job with
    | .error e => (.error e, [])
    | .ok link =>
      if job_id ≠ JVal.str "N/A" ∧ (pay = "N/A" ∨ tp = "N/A" ∨ link = "N/A") then
        let details := fetch job_id
        if truthy details then
          match enrich details pay tp link with
          | .error e => (.error e, [job_id])
          | .ok (pay2, tp2, link2) =>
            (.ok (mkRow job_id title company location pay2 tp2 source_norm link2), [job_id])
        else
          (.ok (mkRow job_id title company location pay tp source_norm link), [job_id])
      else
        (.ok (mkRow job_id title company location pay tp source_norm link), [])

/-! ## Queries, dedupe, and the tail of `main` -/

def ROLE_KEYWORDS : List String :=
  ["Food Safety Supervisor", "Food Safety Supervisor FSQA"]

/-- `build_queries` (lines 257-271). -/
def build_queries : List String :=
  (ROLE_KEYWORDS.map (fun role =>
    ["\"" ++ role ++ "\" food",
     "\"" ++ role ++ "\" HACCP",
     "\"" ++ role ++ "\" SQF",
     "\"" ++ role ++ "\" FSQA",
     "\"" ++ role ++ "\" GMP",
     "\"" ++ role ++ "\" food manufacturing",
     "\"" ++ role ++ "\" food processing"])).flatten

/-- The dedup key (line 278): the `job_id` value when truthy, else the
`title|company|location` concatenation (which raises `TypeError` when one of
those values is not a string). -/
def dkey (r : Row) : Except String JVal :=
  if truthy r.job_id then .ok r.job_id
  else
    match r.title, r.company_name, r.location with
    | .str a, .str b, .str c => .ok (.str (a ++ "|" ++ b ++ "|" ++ c))
    | _, _, _ => .error "TypeError"

/-- The loop of `dedupe` (lines 274-283) with its `seen` set. -/
def dedupeGo (seen : List JVal) : List Row → Except String (List Row)
  | [] => .ok []
  | r :: rest =>
    match dkey r with
    | .error e => .error e
    | .ok k =>
      if k ∈ seen then dedupeGo seen rest
      else
        match dedupeGo (k :: seen) rest with
        | .error e => .error e
        | .ok out => .ok (r :: out)

/-- `dedupe` (lines 274-283). -/
def dedupe (rows : List Row) : Except String (List Row) := dedupeGo [] rows

/-- The comparison `main` sorts by (line 360): ascending `posted_days` of the
`time posted` field. -/
def rowLE (a b : Row) : Bool :=
  posted_days a.time_posted ≤ posted_days b.time_posted

/-- The recency filter of `main` (line 357): keep rows posted within 7 days. -/
def keep7 (rows : List Row) : List Row :=
  rows.filter (fun r => posted_days r.time_posted ≤ 7)

/-- The stable ascending sort of `main` (line 360); Python `list.sort` is a
stable merge sort. -/
def sortRows (rows : List Row) : List Row := rows.mergeSort rowLE

/-! ## `main` (lines 335-381), with network effects as oracles -/

/-- A network request issued during the run. -/
inductive NetCall where
  | searchC (q : String)
  | detailC (id : JVal)
deriving DecidableEq

/-- The per-job body of the loop in `main` (lines 343-352): the source
allow-list check, the food-industry check, then `normalize_row`.  Iterating
a `jobs_results` entry that is not a mapping raises on `job.get`. -/
def processJob (fetch : JVal → JVal) (job : JVal) :
    Except String (Option Row) × List JVal :=
  match job with
  | .obj kvs =>
    match is_allowed_source (pyGet kvs "via") with
    | .error e => (.error e, [])
    | .ok allowed =>
      if !allowed then (.ok none, [])
      else if !looks_food_industry kvs then (.ok none, [])
      else
        match normalize_row fetch kvs with
        | (.ok r, f) => (.ok (some r), f)
        | (.error e, f) => (.error e, f)
  | _ => (.error "AttributeError", [])

/-- The whole double loop of `main` over every job of every query, keeping
the detail-fetch trace even when a later record raises. -/
def gatherRows (fetch : JVal → JVal) : List JVal → Except String (List Row) × List JVal
  | [] => (.ok [], [])
  | j :: js =>
    match processJob fetch j with
    | (.error e, f) => (.error e, f)
    | (.ok none, f) =>
      let (r, fs) := gatherRows fetch js
      (r, f ++ fs)
    | (.ok (some row), f) =>
      match gatherRows fetch js with
      | (.ok rows, fs) => (.ok (row :: rows), f ++ fs)
      | (.error e, fs) => (.error e, f ++ fs)

/-- `main` (lines 335-365) up to the point where the batch is handed to the
spreadsheet writer: validate the environment, run every query through the
search oracle, filter/normalize each job, dedupe, keep the last 7 days and
sort.  The second component is the multiset of network requests issued (the
searches, which `main` always issues once per query after validation, and
the recorded detail fetches). -/
def mainRun (env : Env) (search : String → List JVal) (fetch : JVal → JVal) :
    Except String (List Row) × List NetCall :=
  match validate_env env with
  | .error e => (.error e, [])
  | .ok _ =>
    let queries := build_queries
    let searchCalls := queries.map NetCall.searchC
    let jobs := (queries.map search).flatten
    match gatherRows fetch jobs with
    | (.error e, fids) => (.error e, searchCalls ++ fids.map NetCall.detailC)
    | (.ok rows, fids) =>
      let calls := searchCalls ++ fids.map NetCall.detailC
      match dedupe rows with
      | .error e => (.error e, calls)
      | .ok dd => (.ok (sortRows (keep7 dd)), calls)

/-! ## Definitions supporting the claim statements -/

/-- An attempt outcome the loop of `serpapi_google_jobs` sleeps on and
retries: a network failure, a status in the retry set, or any other status
for which `raise_for_status` raises (the raised `HTTPError` is a
`RequestException`, hence caught). -/
def attemptRetried : HttpOutcome → Bool
  | .netErr => true
  | .resp code _ => decide (code ∈ RETRY_STATUSES) || (decide (400 ≤ code) && decide (code < 600))

/-- The value `serpapi_google_jobs` builds from a response it accepts:
`data.get("jobs_results", []) or []`, or an `AttributeError` when the body
is not a mapping. -/
def respBodyJobs : HttpOutcome → Except String JVal
  | .resp _ body =>
    match body with
    | .obj kvs => .ok (pyOr (pyGetD kvs "jobs_results" (.arr [])) (.arr []))
    | _ => .error "AttributeError"
  | .netErr => .ok (.arr [])

/-- Response world for the C3 counterexample: a non-retryable 401 on the
first attempt, then a successful response carrying one job. -/
def c3rsp : Nat → HttpOutcome := fun a =>
  if a = 1 then .resp 401 .null
  else .resp 200 (.obj [("jobs_results", .arr [.str "J"])])

/-- First raw record for the C1 counterexample: no `job_id`, triple
`(A, CA, LA)`. -/
def c1job1 : List (String × JVal) :=
  [("title", .str "A"), ("company_name", .str "CA"), ("location", .str "LA"),
   ("via", .str "Indeed")]

/-- Second raw record for the C1 counterexample: no `job_id`, triple
`(B, CB, LB)`. -/
def c1job2 : List (String × JVal) :=
  [("title", .str "B"), ("company_name", .str "CB"), ("location", .str "LB"),
   ("via", .str "Indeed")]

/-- The row `normalize_row` produces from `c1job1`. -/
def c1row1 : Row :=
  { job_id := .str "N/A", title := .str "A", company_name := .str "CA",
    pay := "N/A", time_posted := "N/A", location := .str "LA",
    source := "Indeed", apply_link := "N/A" }

/-- The row `normalize_row` produces from `c1job2`. -/
def c1row2 : Row :=
  { job_id := .str "N/A", title := .str "B", company_name := .str "CB",
    pay := "N/A", time_posted := "N/A", location := .str "LB",
    source := "Indeed", apply_link := "N/A" }

/-- A row with a distinct truthy `job_id`, for the C10 witness. -/
def c10rowA : Row :=
  { job_id := .str "ida", title := .str "TA", company_name := .str "CA",
    pay := "N/A", time_posted := "N/A", location := .str "LA",
    source := "Indeed", apply_link := "N/A" }

/-- A second row with a distinct truthy `job_id`, for the C10 witness. -/
def c10rowB : Row :=
  { job_id := .str "idb", title := .str "TB", company_name := .str "CB",
    pay := "N/A", time_posted := "N/A", location := .str "LB",
    source := "LinkedIn", apply_link := "N/A" }

/-- A fully populated environment, for runs that pass validation. -/
def c2env : Env := ⟨some "k", some "s", some "p", some "r"⟩

/-- A raw job with identifier `X`, an allowed source, a food keyword in its
title, and no pay / time-posted / link — so normalizing it fetches `X`. -/
def c2job : JVal :=
  .obj [("job_id", .str "X"), ("title", .str "Food Safety Supervisor"),
        ("company_name", .str "Acme"), ("location", .str "TX"),
        ("via", .str "Indeed")]

/-- A search world whose first query returns the same job twice (the same
listing discovered by two searches). -/
def c2search : String → List JVal :=
  fun q => if q = "\"Food Safety Supervisor\" food" then [c2job, c2job] else []

/-- A detail-fetch world answering every identifier with an empty record. -/
def c2fetch : JVal → JVal := fun _ => .obj []

/-- A raw record (as a mapping) with identifier `X`, allowed source, and no
pay / time-posted / apply-link, used by the C7 witness. -/
def c7job : List (String × JVal) :=
  [("job_id", .str "X"), ("title", .str "Food Safety Supervisor"),
   ("company_name", .str "Acme"), ("location", .str "TX"), ("via", .str "Indeed")]

/-- A detail world whose every record carries a salary. -/
def c7fetch : JVal → JVal :=
  fun _ => .obj [("detected_extensions", .obj [("salary", .str "99k")])]

/-- The row `normalize_row c7fetch c7job` produces: pay enriched from the
detail record, the other missing fields still sentinel. -/
def c7row : Row :=
  { job_id := .str "X", title := .str "Food Safety Supervisor",
    company_name := .str "Acme", pay := "99k", time_posted := "N/A",
    location := .str "TX", source := "Indeed", apply_link := "N/A" }

/-- One row per recency text, used by the C6 concrete example. -/
def c6row (t : String) : Row :=
  { job_id := .str ("id-" ++ t), title := .str "T", company_name := .str "C",
    pay := "N/A", time_posted := t, location := .str "L",
    source := "Indeed", apply_link := "N/A" }

/-- Deduplicated rows whose recency values are [3, 0, 7, 8, 1]. -/
def c6rows : List Row :=
  [c6row "3 days ago", c6row "Just posted", c6row "7 days ago",
   c6row "8 days ago", c6row "1 day ago"]

/-- A dynamic value that is a string whenever it is truthy, so Python string
methods applied to `value or ""` cannot raise. -/
def strWhenTruthy (v : JVal) : Bool :=
  match v with
  | .str _ => true
  | _ => !truthy v

/-- Well-formedness of a `related_links` / `apply_options` value: when it is
a non-empty list, its first element is a mapping whose `link` value is a
string whenever truthy — exactly what `links[0].get("link")`-then-`startswith`
needs in order not to raise. -/
def wfLinkList (v : JVal) : Bool :=
  match v with
  | .arr (x :: _) =>
    (match x with
     | .obj kvs => strWhenTruthy (pyGet kvs "link")
     | _ => false)
  | _ => true

/-- Raw-record well-formedness under which `normalize_row` cannot raise and
its pass-through fields are strings: title, company_name, location and via
are strings whenever truthy, and related_links is link-well-formed. -/
def wfJob (job : List (String × JVal)) : Bool :=
  strWhenTruthy (pyGet job "title") && strWhenTruthy (pyGet job "company_name") &&
  strWhenTruthy (pyGet job "location") && strWhenTruthy (pyGet job "via") &&
  wfLinkList (pyGet job "related_links")

/-- Detail-record well-formedness: when truthy it is a mapping whose
`apply_options` value is link-well-formed. -/
def wfDetails (d : JVal) : Bool :=
  match d with
  | .obj kvs => wfLinkList (pyGet kvs "apply_options")
  | _ => !truthy d

/-- The value is a non-empty string. -/
def nonEmptyStrJ (v : JVal) : Prop := ∃ s, v = JVal.str s ∧ s ≠ ""

/-- Malformed record for the C4 counterexample: `related_links` is a
non-empty list whose first element is a number, so `links[0].get` raises. -/
def c4badJob : List (String × JVal) := [("related_links", .arr [.num 5])]

/-- A well-formed record used by the C4 witness. -/
def c4job : List (String × JVal) :=
  [("title", .str "Food Safety Supervisor"), ("company_name", .str "Acme"),
   ("via", .str "Indeed")]

/-- A detail world of well-formed records, used by the C4 witness. -/
def c4fetch : JVal → JVal :=
  fun _ => .obj [("detected_extensions", .obj [("salary", .str "55k")])]

/-- A fully populated raw job (pay, recency and link all present) used by
the C9 witness: it survives every filter and needs no detail fetch. -/
def c9job : JVal :=
  .obj [("job_id", .str "X9"), ("title", .str "Food Safety Supervisor"),
        ("company_name", .str "Acme"), ("location", .str "TX"), ("via", .str "Indeed"),
        ("detected_extensions", .obj [("salary", .str "50k"), ("posted_at", .str "2 days ago")]),
        ("related_links", .arr [.obj [("link", .str "https://x.example/j")]])]

/-- The row `c9job` normalizes to. -/
def c9row : Row :=
  { job_id := .str "X9", title := .str "Food Safety Supervisor",
    company_name := .str "Acme", pay := "50k", time_posted := "2 days ago",
    location := .str "TX", source := "Indeed", apply_link := "https://x.example/j" }

/-- The deduplicated row list of the C9 witness run. -/
def c9dd : List Row := [c9row]

/-- The network-call trace of the C9 witness run: one search per query and
no detail fetches. -/
def c9calls : List NetCall :=
  build_queries.map NetCall.searchC ++ ([] : List JVal).map NetCall.detailC

/-! # Theorems -/

/-! ## C5: the recency parser -/

/-- The body of `posted_days` once the empty/"N/A" guard is discharged. -/
theorem posted_days_unfold (s : String) (h1 : s ≠ "") (h2 : s ≠ "N/A") :
    posted_days s =
      (if hasSub (lowerL (stripL s.toList)) "just posted".toList ||
          hasSub (lowerL (stripL s.toList)) "today".toList then 0
      else if hasSub (lowerL (stripL s.toList)) "yesterday".toList then 1
      else
        match findNum (lowerL (stripL s.toList)) "hour".toList with
        | some _ => 0
        | none =>
          match findNum (lowerL (stripL s.toList)) "day".toList with
          | some n => n
          | none =>
            match findNum (lowerL (stripL s.toList)) "week".toList with
            | some n => n * 7
            | none => 999) := by
  unfold posted_days
  rw [if_neg]
  simp [h1, h2]

/-- **C5.** The recency-to-integer parser maps: any string containing
"just posted" or "today" (after strip+lower) to 0; "yesterday" to 1;
"N hour..." to 0; "N day..." to N; "N week..." to N*7; the empty string,
"N/A", and anything matching no pattern to 999; in particular
"Just posted"→0, "1 day ago"→1, "3 days ago"→3, "2 weeks ago"→14, ""→999,
"N/A"→999, "5 hours ago"→0. -/
theorem C5_posted_days :
    (∀ s : String,
      hasSub (lowerL (stripL s.toList)) "just posted".toList = true ∨
        hasSub (lowerL (stripL s.toList)) "today".toList = true →
      posted_days s = 0) ∧
    (∀ s : String,
      hasSub (lowerL (stripL s.toList)) "just posted".toList = false →
      hasSub (lowerL (stripL s.toList)) "today".toList = false →
      hasSub (lowerL (stripL s.toList)) "yesterday".toList = true →
      posted_days s = 1) ∧
    (∀ (s : String) (n : Nat),
      hasSub (lowerL (stripL s.toList)) "just posted".toList = false →
      hasSub (lowerL (stripL s.toList)) "today".toList = false →
      hasSub (lowerL (stripL s.toList)) "yesterday".toList = false →
      findNum (lowerL (stripL s.toList)) "hour".toList = some n →
      posted_days s = 0) ∧
    (∀ (s : String) (n : Nat),
      hasSub (lowerL (stripL s.toList)) "just posted".toList = false →
      hasSub (lowerL (stripL s.toList)) "today".toList = false →
      hasSub (lowerL (stripL s.toList)) "yesterday".toList = false →
      findNum (lowerL (stripL s.toList)) "hour".toList = none →
      findNum (lowerL (stripL s.toList)) "day".toList = some n →
      posted_days s = n) ∧
    (∀ (s : String) (n : Nat),
      hasSub (lowerL (stripL s.toList)) "just posted".toList = false →
      hasSub (lowerL (stripL s.toList)) "today".toList = false →
      hasSub (lowerL (stripL s.toList)) "yesterday".toList = false →
      findNum (lowerL (stripL s.toList)) "hour".toList = none →
      findNum (lowerL (stripL s.toList)) "day".toList = none →
      findNum (lowerL (stripL s.toList)) "week".toList = some n →
      posted_days s = n * 7) ∧
    (∀ s : String, s ≠ "" → s ≠ "N/A" →
      hasSub (lowerL (stripL s.toList)) "just posted".toList = false →
      hasSub (lowerL (stripL s.toList)) "today".toList = false →
      hasSub (lowerL (stripL s.toList)) "yesterday".toList = false →
      findNum (lowerL (stripL s.toList)) "hour".toList = none →
      findNum (lowerL (stripL s.toList)) "day".toList = none →
      findNum (lowerL (stripL s.toList)) "week".toList = none →
      posted_days s = 999) ∧
    posted_days "Just posted" = 0 ∧ posted_days "1 day ago" = 1 ∧
    posted_days "3 days ago" = 3 ∧ posted_days "2 weeks ago" = 14 ∧
    posted_days "" = 999 ∧ posted_days "N/A" = 999 ∧ posted_days "5 hours ago" = 0 := by
  refine ⟨?_, ?_, ?_, ?_, ?_, ?_, by decide, by decide, by decide, by decide,
    by decide, by decide, by decide⟩
  · intro s h
    by_cases h1 : s = ""
    · subst h1; exact absurd h (by decide)
    by_cases h2 : s = "N/A"
    · subst h2; exact absurd h (by decide)
    rw [posted_days_unfold s h1 h2]
    rcases h with h | h
    · rw [if_pos (by rw [h, Bool.true_or])]
    · rw [if_pos (by rw [h, Bool.or_true])]
  · intro s hjp htd hy
    by_cases h1 : s = ""
    · subst h1; exact absurd hy (by decide)
    by_cases h2 : s = "N/A"
    · subst h2; exact absurd hy (by decide)
    rw [posted_days_unfold s h1 h2, if_neg (by rw [hjp, htd]; decide), if_pos hy]
  · intro s n hjp htd hy hh
    by_cases h1 : s = ""
    · subst h1
      have hcon : findNum (lowerL (stripL "".toList)) "hour".toList = none := by decide
      rw [hcon] at hh; exact Option.noConfusion hh
    by_cases h2 : s = "N/A"
    · subst h2
      have hcon : findNum (lowerL (stripL "N/A".toList)) "hour".toList = none := by decide
      rw [hcon] at hh; exact Option.noConfusion hh
    rw [posted_days_unfold s h1 h2, if_neg (by rw [hjp, htd]; decide), if_neg (by rw [hy]; decide), hh]
  · intro s n hjp htd hy hh hd
    by_cases h1 : s = ""
    · subst h1
      have hcon : findNum (lowerL (stripL "".toList)) "day".toList = none := by decide
      rw [hcon] at hd; exact Option.noConfusion hd
    by_cases h2 : s = "N/A"
    · subst h2
      have hcon : findNum (lowerL (stripL "N/A".toList)) "day".toList = none := by decide
      rw [hcon] at hd; exact Option.noConfusion hd
    rw [posted_days_unfold s h1 h2, if_neg (by rw [hjp, htd]; decide), if_neg (by rw [hy]; decide),
      hh, hd]
  · intro s n hjp htd hy hh hd hw
    by_cases h1 : s = ""
    · subst h1
      have hcon : findNum (lowerL (stripL "".toList)) "week".toList = none := by decide
      rw [hcon] at hw; exact Option.noConfusion hw
    by_cases h2 : s = "N/A"
    · subst h2
      have hcon : findNum (lowerL (stripL "N/A".toList)) "week".toList = none := by decide
      rw [hcon] at hw; exact Option.noConfusion hw
    rw [posted_days_unfold s h1 h2, if_neg (by rw [hjp, htd]; decide), if_neg (by rw [hy]; decide),
      hh, hd, hw]
  · intro s h1 h2 hjp htd hy hh hd hw
    rw [posted_days_unfold s h1 h2, if_neg (by rw [hjp, htd]; decide), if_neg (by rw [hy]; decide),
      hh, hd, hw]

/-- Witness for C5: each conditional branch of the theorem applied at a
concrete input. -/
theorem C5_posted_days_witness :
    posted_days "Updated today" = 0 ∧ posted_days "Posted yesterday" = 1 ∧
    posted_days "12 hours ago" = 0 ∧ posted_days "6 days ago" = 6 ∧
    posted_days "3 weeks ago" = 21 ∧ posted_days "last month" = 999 :=
  ⟨C5_posted_days.1 _ (Or.inr (by decide)),
   C5_posted_days.2.1 _ (by decide) (by decide) (by decide),
   C5_posted_days.2.2.1 _ 12 (by decide) (by decide) (by decide) (by decide),
   C5_posted_days.2.2.2.1 _ 6 (by decide) (by decide) (by decide) (by decide) (by decide),
   C5_posted_days.2.2.2.2.1 _ 3 (by decide) (by decide) (by decide) (by decide)
     (by decide) (by decide),
   C5_posted_days.2.2.2.2.2.1 _ (by decide) (by decide) (by decide) (by decide)
     (by decide) (by decide) (by decide) (by decide)⟩

/-! ## C3: retry behavior of the search client -/

/-- Exhausting every attempt on retried outcomes returns the empty list. -/
theorem serpFrom_all_retry (rsp : Nat → HttpOutcome) :
    ∀ (fuel a : Nat), (∀ i, a ≤ i → i < a + fuel → attemptRetried (rsp i) = true) →
      serpFrom rsp a fuel = .ok (.arr []) := by
  intro fuel
  induction fuel with
  | zero => intro a _; rfl
  | succ fuel ih =>
    intro a h
    have ha : attemptRetried (rsp a) = true := h a le_rfl (by omega)
    have hrec : ∀ i, a + 1 ≤ i → i < (a + 1) + fuel → attemptRetried (rsp i) = true :=
      fun i h1 h2 => h i (by omega) (by omega)
    cases hr : rsp a with
    | netErr => simpa [serpFrom, hr] using ih (a + 1) hrec
    | resp code body =>
      rw [hr] at ha
      simp only [attemptRetried, Bool.or_eq_true, Bool.and_eq_true, decide_eq_true_eq] at ha
      by_cases hm : code ∈ RETRY_STATUSES
      · simpa [serpFrom, hr, hm] using ih (a + 1) hrec
      · have h45 : 400 ≤ code ∧ code < 600 := by tauto
        simpa [serpFrom, hr, hm, h45] using ih (a + 1) hrec

/-- The first attempt whose outcome is not retried determines the result. -/
theorem serpFrom_first_success (rsp : Nat → HttpOutcome) :
    ∀ (fuel a k : Nat), a ≤ k → k < a + fuel →
      (∀ i, a ≤ i → i < k → attemptRetried (rsp i) = true) →
      attemptRetried (rsp k) = false →
      serpFrom rsp a fuel = respBodyJobs (rsp k) := by
  intro fuel
  induction fuel with
  | zero => intro a k h1 h2; omega
  | succ fuel ih =>
    intro a k hak hlt h hk
    by_cases heq : a = k
    · subst heq
      cases hr : rsp a with
      | netErr => rw [hr] at hk; exact absurd hk (by decide)
      | resp code body =>
        rw [hr] at hk
        simp only [attemptRetried, Bool.or_eq_true, Bool.and_eq_true, decide_eq_true_eq,
          Bool.or_eq_false_iff, Bool.and_eq_false_iff, decide_eq_false_iff_not] at hk
        have hm : code ∉ RETRY_STATUSES := hk.1
        have h45 : ¬(400 ≤ code ∧ code < 600) := by
          rcases hk.2 with h' | h' <;> intro hc <;> exact h' (by tauto)
        simp [serpFrom, hr, hm, h45, respBodyJobs]
    · have halt : a < k := by omega
      have ha : attemptRetried (rsp a) = true := h a le_rfl halt
      have hrec : ∀ i, a + 1 ≤ i → i < k → attemptRetried (rsp i) = true :=
        fun i h1 h2 => h i (by omega) h2
      have := ih (a + 1) k (by omega) (by omega) hrec hk
      cases hr : rsp a with
      | netErr => simpa [serpFrom, hr] using this
      | resp code body =>
        rw [hr] at ha
        simp only [attemptRetried, Bool.or_eq_true, Bool.and_eq_true, decide_eq_true_eq] at ha
        by_cases hm : code ∈ RETRY_STATUSES
        · simpa [serpFrom, hr, hm] using this
        · have h45 : 400 ≤ code ∧ code < 600 := by tauto
          simpa [serpFrom, hr, hm, h45] using this

/-- **C3 (amended).** Every HTTP error status — retryable or not — and every
network failure is backed off and retried: the search returns the
`jobs_results` of the first non-error response within the 5 attempts, and
returns the empty list (never raising) when all 5 attempts error out. -/
theorem C3_search_retry_behavior :
    (∀ rsp : Nat → HttpOutcome,
      (∀ a, 1 ≤ a → a ≤ 5 → attemptRetried (rsp a) = true) →
      serpapi_google_jobs rsp = .ok (.arr [])) ∧
    (∀ (rsp : Nat → HttpOutcome) (k : Nat),
      1 ≤ k → k ≤ 5 →
      (∀ a, 1 ≤ a → a < k → attemptRetried (rsp a) = true) →
      attemptRetried (rsp k) = false →
      serpapi_google_jobs rsp = respBodyJobs (rsp k)) := by
  constructor
  · intro rsp h
    exact serpFrom_all_retry rsp 5 1 (fun i h1 h2 => h i h1 (by omega))
  · intro rsp k h1 h2 h3 h4
    exact serpFrom_first_success rsp 5 1 k h1 (by omega) h3 h4

/-- Witness for C3 (amended): both conjuncts at concrete response worlds —
five straight 401s give `[]`; a 401 then a 200 give the 200's jobs. -/
theorem C3_search_retry_behavior_witness :
    serpapi_google_jobs (fun _ => .resp 401 .null) = .ok (.arr []) ∧
    serpapi_google_jobs c3rsp = respBodyJobs (c3rsp 2) := by
  have h401 : attemptRetried (.resp 401 .null) = true := by decide
  refine ⟨C3_search_retry_behavior.1 (fun _ => .resp 401 .null) (fun a _ _ => h401), ?_⟩
  refine C3_search_retry_behavior.2 c3rsp 2 (by decide) (by decide) ?_ (by decide)
  intro a ha1 ha2
  have ha : a = 1 := by omega
  subst ha
  decide

/-- **C3 (counterexample).** The first attempt answers with status 401 — an
HTTP error outside the retryable set — yet the search does not return an
empty sequence: the exception from `raise_for_status` is caught by the
generic `RequestException` handler, the call is retried, and the second
attempt's jobs are returned. -/
theorem C3_counterexample :
    c3rsp 1 = .resp 401 .null ∧ (401 ∉ RETRY_STATUSES) ∧ 400 ≤ 401 ∧
    serpapi_google_jobs c3rsp = .ok (.arr [.str "J"]) ∧
    (.ok (.arr [.str "J"]) : Except String JVal) ≠ .ok (.arr []) := by decide

/-! ## C1: the dedup key for sentinel rows -/

/-- **C1 (counterexample).** Two normalized rows whose `job_id` is the
sentinel `"N/A"` but whose (title, company, location) triples differ are NOT
both kept: `"N/A"` is truthy, so both rows get dedup key `"N/A"` and the
second collapses into the first. -/
theorem C1_counterexample :
    (normalize_row (fun _ => .obj []) c1job1).1 = .ok c1row1 ∧
    (normalize_row (fun _ => .obj []) c1job2).1 = .ok c1row2 ∧
    c1row1.job_id = .str "N/A" ∧ c1row2.job_id = .str "N/A" ∧
    ¬(c1row1.title = c1row2.title ∧ c1row1.company_name = c1row2.company_name ∧
      c1row1.location = c1row2.location) ∧
    dedupe [c1row1, c1row2] = .ok [c1row1] := by decide

/-- **C1 (amended).** Deduplication keys a row by its `job_id` value whenever
that value is truthy; since `normalize_row` substitutes the truthy string
`"N/A"` for a missing `job_id`, any two sentinel-`job_id` rows share the key
`"N/A"` and collapse to the first-seen row, whether or not their
(title, company name, location) triples differ. -/
theorem C1_sentinel_rows_collapse (r1 r2 : Row)
    (h1 : r1.job_id = .str "N/A") (h2 : r2.job_id = .str "N/A") :
    dedupe [r1, r2] = .ok [r1] := by
  simp [dedupe, dedupeGo, dkey, h1, h2, truthy]

/-- Witness for C1 (amended) at the two concrete counterexample rows. -/
theorem C1_sentinel_rows_collapse_witness : dedupe [c1row1, c1row2] = .ok [c1row1] :=
  C1_sentinel_rows_collapse c1row1 c1row2 (by decide) (by decide)

/-! ## C10: dedupe is idempotent and order-preserving -/

/-- Main induction for C10: on rows with truthy `job_id` (as every
`normalize_row` output has), `dedupeGo` succeeds, returns a subsequence, and
is a fixed point. -/
theorem dedupeGo_spec :
    ∀ (rows : List Row) (seen : List JVal),
      (∀ r ∈ rows, truthy r.job_id = true) →
      ∃ out, dedupeGo seen rows = .ok out ∧ out.Sublist rows ∧
        dedupeGo seen out = .ok out := by
  intro rows
  induction rows with
  | nil => exact fun seen _ => ⟨[], rfl, List.Sublist.refl _, rfl⟩
  | cons r rest ih =>
    intro seen h
    have hr : truthy r.job_id = true := h r (List.mem_cons_self r rest)
    have hk : dkey r = .ok r.job_id := by simp [dkey, hr]
    by_cases hmem : r.job_id ∈ seen
    · obtain ⟨out, h1, h2, h3⟩ := ih seen (fun x hx => h x (List.mem_cons_of_mem r hx))
      refine ⟨out, ?_, h2.cons _, h3⟩
      simp [dedupeGo, hk, hmem, h1]
    · obtain ⟨out, h1, h2, h3⟩ :=
        ih (r.job_id :: seen) (fun x hx => h x (List.mem_cons_of_mem r hx))
      refine ⟨r :: out, ?_, h2.cons₂ _, ?_⟩
      · simp [dedupeGo, hk, hmem, h1]
      · simp [dedupeGo, hk, hmem, h3]

/-- **C10.** On every list of normalized rows (rows with a truthy `job_id`,
which is every row `normalize_row` can produce), `dedupe` succeeds,
`dedupe (dedupe rows) = dedupe rows`, and `dedupe rows` is a subsequence of
`rows` — kept rows appear in first-occurrence order. -/
theorem C10_dedupe_idempotent (rows : List Row)
    (h : ∀ r ∈ rows, truthy r.job_id = true) :
    ∃ out, dedupe rows = .ok out ∧ dedupe out = .ok out ∧ out.Sublist rows := by
  obtain ⟨out, h1, h2, h3⟩ := dedupeGo_spec rows [] h
  exact ⟨out, h1, h3, h2⟩

/-- Witness for C10 at a concrete three-row list with a duplicate. -/
theorem C10_dedupe_idempotent_witness :
    ∃ out, dedupe [c10rowA, c10rowB, c10rowA] = .ok out ∧ dedupe out = .ok out ∧
      out.Sublist [c10rowA, c10rowB, c10rowA] :=
  C10_dedupe_idempotent _ (by decide)

/-! ## C8: missing configuration fails before any network call -/

/-- **C8.** If any required configuration value (API key, email sender,
password, or recipient) is absent (unset or empty), the run fails with the
raised configuration error and the network-call trace is empty: no search or
detail request is issued. -/
theorem C8_missing_config_fails_before_network (env : Env)
    (search : String → List JVal) (fetch : JVal → JVal)
    (h : envTruthy env.serpapi_key = false ∨ envTruthy env.email_sender = false ∨
         envTruthy env.email_password = false ∨ envTruthy env.email_receiver = false) :
    ∃ msg, mainRun env search fetch = (.error msg, []) := by
  cases hk : envTruthy env.serpapi_key with
  | false =>
    exact ⟨"SERPAPI_KEY missing (GitHub Secret).", by simp [mainRun, validate_env, hk]⟩
  | true =>
    have h2 : (!envTruthy env.email_sender || !envTruthy env.email_password ||
        !envTruthy env.email_receiver) = true := by
      rcases h with h | h | h | h
      · rw [h] at hk; cases hk
      all_goals simp [h]
    exact ⟨"EMAIL_SENDER / EMAIL_PASSWORD / EMAIL_RECEIVER missing (GitHub Secrets).",
      by simp [mainRun, validate_env, hk, h2]⟩

/-- Witness for C8: a fully missing environment. -/
theorem C8_missing_config_witness :
    ∃ msg, mainRun ⟨none, none, none, none⟩ (fun _ => []) (fun _ => .obj []) =
      (.error msg, []) :=
  C8_missing_config_fails_before_network ⟨none, none, none, none⟩ (fun _ => [])
    (fun _ => .obj []) (Or.inl (by decide))

/-! ## C2: detail-fetch count -/

/-- **C2 (counterexample).** With a valid environment and a search world in
which one query returns the same job (identifier `X`, pay/time/link all
missing) twice, one whole run issues the detail fetch for `X` twice: the
fetch is per raw record, and deduplication happens only after normalization. -/
theorem C2_counterexample :
    (mainRun c2env c2search c2fetch).2.count (NetCall.detailC (.str "X")) = 2 ∧
    ¬((mainRun c2env c2search c2fetch).2.count (NetCall.detailC (.str "X")) ≤ 1) := by
  decide

/-- **C2 (amended).** Each `normalize_row` call performs at most one detail
fetch, so over a whole run the detail fetch is issued at most once per raw
record processed (not per distinct identifier: an identifier recurring in
several query results is fetched once per occurrence). -/
theorem C2_fetch_once_per_record :
    (∀ (fetch : JVal → JVal) (job : List (String × JVal)),
      (normalize_row fetch job).2.length ≤ 1) ∧
    (∀ (fetch : JVal → JVal) (jobs : List JVal),
      (gatherRows fetch jobs).2.length ≤ jobs.length) := by
  have hnr : ∀ (fetch : JVal → JVal) (job : List (String × JVal)),
      (normalize_row fetch job).2.length ≤ 1 := by
    intro fetch job
    simp only [normalize_row]
    rcases hS : normalize_source (pyGet job "via") with e | sn
    · simp
    · rcases hL : safe_apply_link job with e | link
      · simp
      · dsimp only
        by_cases hC : (pyOr (pyGet job "job_id") (.str "N/A") ≠ JVal.str "N/A" ∧
            (safe_pay job = "N/A" ∨ safe_time_posted job = "N/A" ∨ link = "N/A"))
        · rw [if_pos hC]
          by_cases hT : truthy (fetch (pyOr (pyGet job "job_id") (.str "N/A"))) = true
          · rw [if_pos hT]
            rcases hE : enrich (fetch (pyOr (pyGet job "job_id") (.str "N/A")))
                (safe_pay job) (safe_time_posted job) link with e | t
            · simp
            · rcases t with ⟨p2, t2, l2⟩; simp
          · rw [if_neg hT]; simp
        · rw [if_neg hC]; simp
  refine ⟨hnr, ?_⟩
  have hpj : ∀ (fetch : JVal → JVal) (j : JVal), (processJob fetch j).2.length ≤ 1 := by
    intro fetch j
    rcases j with _ | b | n | str | xs | kvs
    · simp [processJob]
    · simp [processJob]
    · simp [processJob]
    · simp [processJob]
    · simp [processJob]
    · have hb := hnr fetch kvs
      simp only [processJob]
      rcases hA : is_allowed_source (pyGet kvs "via") with e | allowed
      · simp
      · cases allowed
        · simp
        · by_cases hf : looks_food_industry kvs
          · rcases hN : normalize_row fetch kvs with ⟨res, f⟩
            rw [hN] at hb
            rcases res with e | r <;> simp [hf, hN] <;> simpa using hb
          · simp [hf]
  intro fetch jobs
  induction jobs with
  | nil => simp [gatherRows]
  | cons j js ih =>
    have h1 := hpj fetch j
    rcases hP : processJob fetch j with ⟨res, f⟩
    rw [hP] at h1
    simp only at h1
    rcases hG : gatherRows fetch js with ⟨r, fs⟩
    rw [hG] at ih
    simp only at ih
    simp only [gatherRows, hP, hG]
    rcases res with e | o
    · simp; omega
    · rcases o with _ | row
      · simp; omega
      · rcases r with e2 | rows2 <;> simp <;> omega

/-! ## Non-emptiness of the extracted string fields -/

/-- `Nat.toDigitsCore` never returns a list shorter than its accumulator. -/
theorem toDigitsCore_cons_ne_nil (b f n : Nat) (c : Char) (tl : List Char) :
    Nat.toDigitsCore b f n (c :: tl) ≠ [] := by
  intro h
  have hlen := Nat.toDigitsCore_lens_eq b f n c tl
  rw [h] at hlen
  simp at hlen

/-- `Nat.toDigits` is never empty. -/
theorem toDigits_ne_nil (b n : Nat) : Nat.toDigits b n ≠ [] := by
  unfold Nat.toDigits
  simp only [Nat.toDigitsCore]
  split
  · simp
  · exact toDigitsCore_cons_ne_nil _ _ _ _ _

/-- Decimal representation of a natural number is never the empty string. -/
theorem natRepr_ne_empty (n : Nat) : Nat.repr n ≠ "" := by
  unfold Nat.repr
  intro h
  exact toDigits_ne_nil 10 n (by simpa using List.asString_eq.mp h)

/-- `str()` of an integer is never the empty string. -/
theorem intToString_ne_empty (i : Int) : toString i ≠ "" := by
  cases i with
  | ofNat m =>
    show Nat.repr m ≠ ""
    exact natRepr_ne_empty m
  | negSucc m =>
    show ("-" ++ Nat.repr (m + 1)) ≠ ""
    intro h
    have hd := congrArg String.data h
    rw [String.data_append] at hd
    simp at hd

/-- `str()` of a truthy value is never the empty string. -/
theorem pyStr_truthy_ne_empty (v : JVal) (h : truthy v = true) : pyStr v ≠ "" := by
  cases v with
  | null => cases h
  | bool b =>
    cases b
    · cases h
    · decide
  | num n =>
    show toString n ≠ ""
    exact intToString_ne_empty n
  | str s => simpa [truthy] using h
  | arr xs =>
    show ("[" ++ pyReprList xs ++ "]") ≠ ""
    intro hc
    have hd := congrArg String.data hc
    rw [String.data_append, String.data_append] at hd
    simp at hd
  | obj kvs =>
    show ("\x7b" ++ pyReprObj kvs ++ "\x7d") ≠ ""
    intro hc
    have hd := congrArg String.data hc
    rw [String.data_append, String.data_append] at hd
    simp at hd

/-- The extension scan of `safe_pay` never yields the empty string. -/
theorem scanPay_ne_empty (xs : List JVal) : scanPay xs ≠ "" := by
  induction xs with
  | nil => decide
  | cons x rest ih =>
    cases x with
    | str item =>
      simp only [scanPay]
      split
      · rename_i hm
        intro hc
        rw [hc] at hm
        exact absurd hm (by decide)
      · exact ih
    | null => simpa [scanPay] using ih
    | bool b => simpa [scanPay] using ih
    | num n => simpa [scanPay] using ih
    | arr ys => simpa [scanPay] using ih
    | obj kvs => simpa [scanPay] using ih

/-- The extension scan of `safe_time_posted` never yields the empty string. -/
theorem scanTime_ne_empty (xs : List JVal) : scanTime xs ≠ "" := by
  induction xs with
  | nil => decide
  | cons x rest ih =>
    cases x with
    | str item =>
      simp only [scanTime]
      split
      · rename_i hm
        intro hc
        rw [hc] at hm
        exact absurd hm (by decide)
      · exact ih
    | null => simpa [scanTime] using ih
    | bool b => simpa [scanTime] using ih
    | num n => simpa [scanTime] using ih
    | arr ys => simpa [scanTime] using ih
    | obj kvs => simpa [scanTime] using ih

/-- `safe_pay` never returns the empty string. -/
theorem safe_pay_ne_empty (job : List (String × JVal)) : safe_pay job ≠ "" := by
  have hext : (match pyOr (pyGet job "extensions") (.arr []) with
      | JVal.arr xs => scanPay xs
      | _ => "N/A") ≠ "" := by
    rcases hex : pyOr (pyGet job "extensions") (.arr []) with _ | b | n | s | xs | kvs <;>
      dsimp only <;> first | exact scanPay_ne_empty _ | decide
  unfold safe_pay
  dsimp only
  rcases hde : pyOr (pyGet job "detected_extensions") (.obj []) with _ | b | n | s | xs | kvs <;>
    dsimp only
  · exact hext
  · exact hext
  · exact hext
  · exact hext
  · exact hext
  · by_cases htr : truthy (pyGet kvs "salary") = true
    · rw [if_pos htr]
      dsimp only
      exact pyStr_truthy_ne_empty _ htr
    · rw [if_neg htr]
      dsimp only
      exact hext

/-- `safe_time_posted` never returns the empty string. -/
theorem safe_time_posted_ne_empty (job : List (String × JVal)) :
    safe_time_posted job ≠ "" := by
  have hext : (match pyOr (pyGet job "extensions") (.arr []) with
      | JVal.arr xs => scanTime xs
      | _ => "N/A") ≠ "" := by
    rcases hex : pyOr (pyGet job "extensions") (.arr []) with _ | b | n | s | xs | kvs <;>
      dsimp only <;> first | exact scanTime_ne_empty _ | decide
  unfold safe_time_posted
  dsimp only
  rcases hde : pyOr (pyGet job "detected_extensions") (.obj []) with _ | b | n | s | xs | kvs <;>
    dsimp only
  · exact hext
  · exact hext
  · exact hext
  · exact hext
  · exact hext
  · by_cases htr : truthy (pyGet kvs "posted_at") = true
    · rw [if_pos htr]
      dsimp only
      exact pyStr_truthy_ne_empty _ htr
    · rw [if_neg htr]
      dsimp only
      exact hext

/-- A link accepted by `linkFromEntry` is never the empty string. -/
theorem linkFromEntry_ok_ne_empty {x : JVal} {l : String}
    (h : linkFromEntry x = .ok l) : l ≠ "" := by
  unfold linkFromEntry at h
  split at h
  · rename_i kvs
    split at h
    · injection h with h
      rw [← h]
      split
      · rename_i hs
        intro hc
        rw [hc] at hs
        exact absurd hs (by decide)
      · decide
    · cases h
  · cases h

/-- A link returned by `safe_apply_link` is never the empty string. -/
theorem safe_apply_link_ok_ne_empty {job : List (String × JVal)} {l : String}
    (h : safe_apply_link job = .ok l) : l ≠ "" := by
  unfold safe_apply_link at h
  split at h
  · exact linkFromEntry_ok_ne_empty h
  · injection h with h
    rw [← h]
    decide

/-! ## C7: the enrichment step of `normalize_row` -/

/-- A successful `Except` bind splits into a successful step and a
successful continuation. -/
theorem except_bind_ok {α β : Type} {A : Except String α} {f : α → Except String β} {v : β}
    (h : A.bind f = .ok v) : ∃ a, A = .ok a ∧ f a = .ok v := by
  cases A with
  | error e => simp [Except.bind] at h
  | ok a => exact ⟨a, rfl, by simpa [Except.bind] using h⟩

/-- The enrichment block overwrites only fields that were `"N/A"`. -/
theorem enrich_frame {details : JVal} {pay tp link p2 t2 l2 : String}
    (h : enrich details pay tp link = .ok (p2, t2, l2)) :
    (pay ≠ "N/A" → p2 = pay) ∧ (tp ≠ "N/A" → t2 = tp) ∧ (link ≠ "N/A" → l2 = link) := by
  unfold enrich at h
  obtain ⟨pay2, hA, h⟩ := except_bind_ok h
  obtain ⟨tp2, hB, h⟩ := except_bind_ok h
  obtain ⟨link2, hC, h⟩ := except_bind_ok h
  injection h with h
  injection h with hp hrest
  injection hrest with ht hl
  subst hp ht hl
  refine ⟨fun hq => ?_, fun hq => ?_, fun hq => ?_⟩
  · rw [if_neg hq] at hA
    injection hA with hA
    exact hA.symm
  · rw [if_neg hq] at hB
    injection hB with hB
    exact hB.symm
  · rw [if_neg hq] at hC
    injection hC with hC
    exact hC.symm

/-- Projections of the final row dictionary. -/
theorem mkRow_proj (jid title comp loc : JVal) (p t sn l : String) :
    (mkRow jid title comp loc p t sn l).job_id = jid ∧
    (mkRow jid title comp loc p t sn l).title = title ∧
    (mkRow jid title comp loc p t sn l).company_name = comp ∧
    (mkRow jid title comp loc p t sn l).location = loc ∧
    (mkRow jid title comp loc p t sn l).source = (if sn = "" then "N/A" else sn) ∧
    (p ≠ "" → (mkRow jid title comp loc p t sn l).pay = p) ∧
    (t ≠ "" → (mkRow jid title comp loc p t sn l).time_posted = t) ∧
    (l ≠ "" → (mkRow jid title comp loc p t sn l).apply_link = l) := by
  unfold mkRow
  exact ⟨rfl, rfl, rfl, rfl, rfl,
    fun h => by simp [h], fun h => by simp [h], fun h => by simp [h]⟩

/-- **C7.** On every successful `normalize_row` call: the detail fetch
happens exactly when the identifier is usable (not the sentinel — and the
sentinel stands in for every falsy raw identifier, so a usable one is
non-empty) and at least one of pay / time-posted / apply-link is still
`"N/A"` after primary extraction; at most one fetch happens per call; and
enrichment leaves `job_id`, `title`, `company_name`, `location`, the
normalized source, and every already non-sentinel field unchanged. -/
theorem C7_enrichment_frame (fetch : JVal → JVal) (job : List (String × JVal))
    (row : Row) (fids : List JVal) (link : String)
    (hn : normalize_row fetch job = (.ok row, fids))
    (hl : safe_apply_link job = .ok link) :
    (fids ≠ [] ↔ (pyOr (pyGet job "job_id") (.str "N/A") ≠ .str "N/A" ∧
       (safe_pay job = "N/A" ∨ safe_time_posted job = "N/A" ∨ link = "N/A"))) ∧
    fids.length ≤ 1 ∧
    row.job_id = pyOr (pyGet job "job_id") (.str "N/A") ∧
    row.title = pyOr (pyGet job "title") (.str "N/A") ∧
    row.company_name = pyOr (pyGet job "company_name") (.str "N/A") ∧
    row.location = pyOr (pyGet job "location") (.str "N/A") ∧
    (∀ sn, normalize_source (pyGet job "via") = .ok sn →
      row.source = (if sn = "" then "N/A" else sn)) ∧
    (safe_pay job ≠ "N/A" → row.pay = safe_pay job) ∧
    (safe_time_posted job ≠ "N/A" → row.time_posted = safe_time_posted job) ∧
    (link ≠ "N/A" → row.apply_link = link) := by
  unfold normalize_row at hn
  rcases hS : normalize_source (pyGet job "via") with e | sn <;> rw [hS] at hn <;>
    dsimp only at hn
  · exact absurd hn (by simp)
  rw [hl] at hn
  dsimp only at hn
  by_cases hC : (pyOr (pyGet job "job_id") (.str "N/A") ≠ JVal.str "N/A" ∧
      (safe_pay job = "N/A" ∨ safe_time_posted job = "N/A" ∨ link = "N/A"))
  · rw [if_pos hC] at hn
    by_cases hT : truthy (fetch (pyOr (pyGet job "job_id") (.str "N/A"))) = true
    · rw [if_pos hT] at hn
      rcases hE : enrich (fetch (pyOr (pyGet job "job_id") (.str "N/A")))
          (safe_pay job) (safe_time_posted job) link with e | t
      · rw [hE] at hn
        exact absurd hn (by simp)
      · rcases t with ⟨p2, t2, l2⟩
        rw [hE] at hn
        dsimp only at hn
        injection hn with hn1 hn2
        injection hn1 with hrow
        subst hrow
        obtain ⟨hfr1, hfr2, hfr3⟩ := enrich_frame hE
        obtain ⟨m1, m2, m3, m4, m5, m6, m7, m8⟩ := mkRow_proj
          (pyOr (pyGet job "job_id") (.str "N/A")) (pyOr (pyGet job "title") (.str "N/A"))
          (pyOr (pyGet job "company_name") (.str "N/A"))
          (pyOr (pyGet job "location") (.str "N/A")) p2 t2 sn l2
        refine ⟨⟨fun _ => hC, fun _ => by rw [← hn2]; simp⟩, by rw [← hn2]; simp,
          m1, m2, m3, m4, ?_, ?_, ?_, ?_⟩
        · intro sn2 hsn2
          injection hsn2 with hsn2
          rw [← hsn2]
          exact m5
        · intro hq
          rw [hfr1 hq]
          exact (by rw [hfr1 hq] at m6; exact m6 (safe_pay_ne_empty job))
        · intro hq
          rw [hfr2 hq]
          exact (by rw [hfr2 hq] at m7; exact m7 (safe_time_posted_ne_empty job))
        · intro hq
          rw [hfr3 hq]
          exact (by rw [hfr3 hq] at m8; exact m8 (safe_apply_link_ok_ne_empty hl))
    · rw [if_neg hT] at hn
      injection hn with hn1 hn2
      injection hn1 with hrow
      subst hrow
      obtain ⟨m1, m2, m3, m4, m5, m6, m7, m8⟩ := mkRow_proj
        (pyOr (pyGet job "job_id") (.str "N/A")) (pyOr (pyGet job "title") (.str "N/A"))
        (pyOr (pyGet job "company_name") (.str "N/A"))
        (pyOr (pyGet job "location") (.str "N/A")) (safe_pay job) (safe_time_posted job) sn link
      refine ⟨⟨fun _ => hC, fun _ => by rw [← hn2]; simp⟩, by rw [← hn2]; simp,
        m1, m2, m3, m4, ?_, ?_, ?_, ?_⟩
      · intro sn2 hsn2
        injection hsn2 with hsn2
        rw [← hsn2]
        exact m5
      · exact fun _ => m6 (safe_pay_ne_empty job)
      · exact fun _ => m7 (safe_time_posted_ne_empty job)
      · exact fun _ => m8 (safe_apply_link_ok_ne_empty hl)
  · rw [if_neg hC] at hn
    injection hn with hn1 hn2
    injection hn1 with hrow
    subst hrow
    obtain ⟨m1, m2, m3, m4, m5, m6, m7, m8⟩ := mkRow_proj
      (pyOr (pyGet job "job_id") (.str "N/A")) (pyOr (pyGet job "title") (.str "N/A"))
      (pyOr (pyGet job "company_name") (.str "N/A"))
      (pyOr (pyGet job "location") (.str "N/A")) (safe_pay job) (safe_time_posted job) sn link
    refine ⟨⟨fun hne => absurd hn2.symm hne, fun hc => absurd hc hC⟩, by rw [← hn2]; simp,
      m1, m2, m3, m4, ?_, ?_, ?_, ?_⟩
    · intro sn2 hsn2
      injection hsn2 with hsn2
      rw [← hsn2]
      exact m5
    · exact fun _ => m6 (safe_pay_ne_empty job)
    · exact fun _ => m7 (safe_time_posted_ne_empty job)
    · exact fun _ => m8 (safe_apply_link_ok_ne_empty hl)

/-- Witness for C7 at a concrete record whose pay gets enriched. -/
theorem C7_enrichment_frame_witness :
    ([JVal.str "X"] : List JVal).length ≤ 1 ∧
    c7row.job_id = pyOr (pyGet c7job "job_id") (.str "N/A") :=
  ⟨(C7_enrichment_frame c7fetch c7job c7row [.str "X"] "N/A"
      (by decide) (by decide)).2.1,
   (C7_enrichment_frame c7fetch c7job c7row [.str "X"] "N/A"
      (by decide) (by decide)).2.2.1⟩

/-! ## C6: recency filter and stable sort -/

/-- **C6.** The final batch drops every row whose recency value exceeds 7 and
stably sorts the survivors ascending by that value: the result is a
permutation of the filtered rows, is sorted, preserves the relative order of
equal-recency rows, and on rows with recency values [3, 0, 7, 8, 1] yields
exactly the rows with values [0, 1, 3, 7] in that order. -/
theorem C6_final_batch :
    (∀ rows : List Row, (sortRows (keep7 rows)).Perm (keep7 rows)) ∧
    (∀ rows : List Row, (sortRows (keep7 rows)).Pairwise
      (fun a b => posted_days a.time_posted ≤ posted_days b.time_posted)) ∧
    (∀ (rows : List Row) (k : Nat),
      (sortRows (keep7 rows)).filter (fun r => posted_days r.time_posted = k) =
        (keep7 rows).filter (fun r => posted_days r.time_posted = k)) ∧
    sortRows (keep7 c6rows) =
      [c6row "Just posted", c6row "1 day ago", c6row "3 days ago", c6row "7 days ago"] ∧
    (sortRows (keep7 c6rows)).map (fun r => posted_days r.time_posted) = [0, 1, 3, 7] := by
  have trans : ∀ a b c : Row, rowLE a b → rowLE b c → rowLE a c := by
    intro a b c hab hbc
    simp only [rowLE, decide_eq_true_eq] at hab hbc ⊢
    omega
  have total : ∀ a b : Row, rowLE a b || rowLE b a := by
    intro a b
    simp only [rowLE, Bool.or_eq_true, decide_eq_true_eq]
    omega
  have h4 : sortRows (keep7 c6rows) =
      [c6row "Just posted", c6row "1 day ago", c6row "3 days ago", c6row "7 days ago"] := by
    have hperm : (sortRows (keep7 c6rows)).Perm
        [c6row "Just posted", c6row "1 day ago", c6row "3 days ago", c6row "7 days ago"] :=
      (List.mergeSort_perm (keep7 c6rows) rowLE).trans (by decide)
    have hs1 : (sortRows (keep7 c6rows)).Pairwise (fun a b => rowLE a b) :=
      List.sorted_mergeSort trans total (keep7 c6rows)
    refine List.Perm.eq_of_sorted ?_ hs1 (by decide) hperm
    intro a b ha hb hab hba
    have ha2 : a ∈ keep7 c6rows := by simpa [sortRows] using ha
    rw [show keep7 c6rows =
      [c6row "3 days ago", c6row "Just posted", c6row "7 days ago", c6row "1 day ago"]
      from by decide] at ha2
    fin_cases ha2 <;> fin_cases hb <;>
      first
        | rfl
        | exact absurd hab (by decide)
        | exact absurd hba (by decide)
  refine ⟨?_, ?_, ?_, h4, by rw [h4]; decide⟩
  · exact fun rows => List.mergeSort_perm (keep7 rows) rowLE
  · intro rows
    have h := List.sorted_mergeSort trans total (keep7 rows)
    exact h.imp (fun hab => by simpa [rowLE] using hab)
  · intro rows k
    have hpair : ((keep7 rows).filter (fun r => posted_days r.time_posted = k)).Pairwise
        (fun a b => rowLE a b) := by
      apply List.pairwise_of_forall_mem_list
      intro a ha b hb
      have ha2 := (List.mem_filter.mp ha).2
      have hb2 := (List.mem_filter.mp hb).2
      simp only [decide_eq_true_eq] at ha2 hb2
      simp [rowLE, ha2, hb2]
    have hsub : List.Sublist
        ((keep7 rows).filter (fun r => posted_days r.time_posted = k)) (keep7 rows) :=
      List.filter_sublist _
    have hs := List.sublist_mergeSort trans total hpair hsub
    have hfsub : List.Sublist
        ((keep7 rows).filter (fun r => posted_days r.time_posted = k))
        ((sortRows (keep7 rows)).filter (fun r => posted_days r.time_posted = k)) := by
      have h2 := hs.filter (fun r => decide (posted_days r.time_posted = k))
      simp only [List.filter_filter, Bool.and_self] at h2
      simpa [sortRows] using h2
    have hperm : ((sortRows (keep7 rows)).filter (fun r => posted_days r.time_posted = k)).Perm
        ((keep7 rows).filter (fun r => posted_days r.time_posted = k)) :=
      (List.mergeSort_perm (keep7 rows) rowLE).filter _
    exact (hfsub.eq_of_length hperm.length_eq.symm).symm

/-! ## C4: totality and field shape of `normalize_row` -/

/-- A string-when-truthy value is a string or falsy. -/
theorem strWhenTruthy_cases {v : JVal} (h : strWhenTruthy v = true) :
    (∃ s, v = JVal.str s) ∨ truthy v = false := by
  cases v with
  | str s => exact Or.inl ⟨s, rfl⟩
  | null => exact Or.inr rfl
  | bool b => exact Or.inr (by simpa [strWhenTruthy] using h)
  | num n => exact Or.inr (by simpa [strWhenTruthy] using h)
  | arr xs => exact Or.inr (by simpa [strWhenTruthy] using h)
  | obj kvs => exact Or.inr (by simpa [strWhenTruthy] using h)

/-- `value or ""` of a string-when-truthy value is a string. -/
theorem pyOr_str_of_wf {v : JVal} (h : strWhenTruthy v = true) :
    ∃ s, pyOr v (.str "") = JVal.str s := by
  rcases strWhenTruthy_cases h with ⟨s, rfl⟩ | hf
  · by_cases ht : truthy (JVal.str s) = true
    · exact ⟨s, by simp [pyOr, ht]⟩
    · exact ⟨"", by simp [pyOr, ht]⟩
  · exact ⟨"", by simp [pyOr, hf]⟩

/-- `normalize_source` succeeds on a string-when-truthy `via` and returns
one of the four names or the empty string. -/
theorem normalize_source_ok_of_wf {v : JVal} (h : strWhenTruthy v = true) :
    ∃ sn, normalize_source v = .ok sn ∧
      sn ∈ (["Indeed", "LinkedIn", "Glassdoor", "ZipRecruiter", ""] : List String) := by
  obtain ⟨s, hs⟩ := pyOr_str_of_wf h
  unfold normalize_source
  rw [hs]
  dsimp only
  by_cases h1 : strIn "indeed" (pyStripLower s) = true
  · rw [if_pos h1]; exact ⟨_, rfl, by decide⟩
  rw [if_neg h1]
  by_cases h2 : strIn "linkedin" (pyStripLower s) = true
  · rw [if_pos h2]; exact ⟨_, rfl, by decide⟩
  rw [if_neg h2]
  by_cases h3 : strIn "glassdoor" (pyStripLower s) = true
  · rw [if_pos h3]; exact ⟨_, rfl, by decide⟩
  rw [if_neg h3]
  by_cases h4 : strIn "ziprecruiter" (pyStripLower s) = true
  · rw [if_pos h4]; exact ⟨_, rfl, by decide⟩
  rw [if_neg h4]
  exact ⟨_, rfl, by decide⟩

/-- `linkFromEntry` succeeds on a mapping whose link is string-when-truthy. -/
theorem linkFromEntry_ok_of_wf {kvs : List (String × JVal)}
    (h : strWhenTruthy (pyGet kvs "link") = true) :
    ∃ l, linkFromEntry (.obj kvs) = .ok l := by
  obtain ⟨s, hs⟩ := pyOr_str_of_wf h
  unfold linkFromEntry
  dsimp only
  rw [hs]
  exact ⟨_, rfl⟩

/-- `safe_apply_link` succeeds on a record whose `related_links` is
link-well-formed. -/
theorem safe_apply_link_ok_of_wf {job : List (String × JVal)}
    (h : wfLinkList (pyGet job "related_links") = true) :
    ∃ l, safe_apply_link job = .ok l := by
  unfold safe_apply_link
  by_cases ht : truthy (pyGet job "related_links") = true
  · rw [show pyOr (pyGet job "related_links") (.arr []) = pyGet job "related_links" from by
      simp [pyOr, ht]]
    rcases hrl : pyGet job "related_links" with _ | b | n | s | xs | kvs <;> rw [hrl] at h
    · exact ⟨_, rfl⟩
    · exact ⟨_, rfl⟩
    · exact ⟨_, rfl⟩
    · exact ⟨_, rfl⟩
    · rcases xs with _ | ⟨x, rest⟩
      · exact ⟨_, rfl⟩
      · rcases x with _ | _ | _ | _ | _ | lkvs <;> simp only [wfLinkList] at h
        · cases h
        · cases h
        · cases h
        · cases h
        · cases h
        · exact linkFromEntry_ok_of_wf h
    · exact ⟨_, rfl⟩
  · rw [show pyOr (pyGet job "related_links") (.arr []) = JVal.arr [] from by
      simp [pyOr, ht]]
    exact ⟨_, rfl⟩

/-- A truthy well-formed detail record is a mapping with well-formed
`apply_options`. -/
theorem wfDetails_truthy_obj {d : JVal} (h : wfDetails d = true) (ht : truthy d = true) :
    ∃ kvs, d = .obj kvs ∧ wfLinkList (pyGet kvs "apply_options") = true := by
  cases d with
  | obj kvs => exact ⟨kvs, rfl, by simpa [wfDetails] using h⟩
  | null => cases ht
  | bool b => rw [show wfDetails (JVal.bool b) = !truthy (JVal.bool b) from rfl, ht] at h; cases h
  | num n => rw [show wfDetails (JVal.num n) = !truthy (JVal.num n) from rfl, ht] at h; cases h
  | str s => rw [show wfDetails (JVal.str s) = !truthy (JVal.str s) from rfl, ht] at h; cases h
  | arr xs => rw [show wfDetails (JVal.arr xs) = !truthy (JVal.arr xs) from rfl, ht] at h; cases h

/-- `safe_pay_from_details` succeeds on any mapping. -/
theorem safe_pay_from_details_obj (kvs : List (String × JVal)) :
    ∃ p, safe_pay_from_details (.obj kvs) = .ok p := by
  unfold safe_pay_from_details
  dsimp only
  rcases hde : pyOr (pyGet kvs "detected_extensions") (.obj []) with _ | b | n | s | xs | de <;>
    exact ⟨_, rfl⟩

/-- `safe_time_posted_from_details` succeeds on any mapping. -/
theorem safe_time_posted_from_details_obj (kvs : List (String × JVal)) :
    ∃ t, safe_time_posted_from_details (.obj kvs) = .ok t := by
  unfold safe_time_posted_from_details
  dsimp only
  rcases hde : pyOr (pyGet kvs "detected_extensions") (.obj []) with _ | b | n | s | xs | de <;>
    exact ⟨_, rfl⟩

/-- `safe_apply_link_from_details` succeeds on a mapping with well-formed
`apply_options`. -/
theorem safe_apply_link_from_details_ok {kvs : List (String × JVal)}
    (h : wfLinkList (pyGet kvs "apply_options") = true) :
    ∃ l, safe_apply_link_from_details (.obj kvs) = .ok l := by
  unfold safe_apply_link_from_details
  dsimp only
  by_cases ht : truthy (pyGet kvs "apply_options") = true
  · rw [show pyOr (pyGet kvs "apply_options") (.arr []) = pyGet kvs "apply_options" from by
      simp [pyOr, ht]]
    rcases hao : pyGet kvs "apply_options" with _ | b | n | s | xs | okvs <;> rw [hao] at h
    · exact ⟨_, rfl⟩
    · exact ⟨_, rfl⟩
    · exact ⟨_, rfl⟩
    · exact ⟨_, rfl⟩
    · rcases xs with _ | ⟨x, rest⟩
      · exact ⟨_, rfl⟩
      · rcases x with _ | _ | _ | _ | _ | lkvs <;> simp only [wfLinkList] at h
        · cases h
        · cases h
        · cases h
        · cases h
        · cases h
        · exact linkFromEntry_ok_of_wf h
    · exact ⟨_, rfl⟩
  · rw [show pyOr (pyGet kvs "apply_options") (.arr []) = JVal.arr [] from by
      simp [pyOr, ht]]
    exact ⟨_, rfl⟩

/-- `enrich` succeeds on a mapping-shaped detail record with well-formed
`apply_options`. -/
theorem enrich_ok {details : JVal}
    (hobj : ∃ kvs, details = .obj kvs ∧ wfLinkList (pyGet kvs "apply_options") = true)
    (pay tp link : String) :
    ∃ t, enrich details pay tp link = .ok t := by
  obtain ⟨kvs, rfl, hwf⟩ := hobj
  obtain ⟨p, hp⟩ := safe_pay_from_details_obj kvs
  obtain ⟨t2, ht2⟩ := safe_time_posted_from_details_obj kvs
  obtain ⟨l2, hl2⟩ := safe_apply_link_from_details_ok hwf
  unfold enrich
  by_cases h1 : pay = "N/A" <;> by_cases h2 : tp = "N/A" <;> by_cases h3 : link = "N/A" <;>
    simp only [h1, h2, h3, if_pos, if_neg, if_true, if_false, ite_true, ite_false,
      hp, ht2, hl2, Except.map, Except.bind] <;>
    exact ⟨_, rfl⟩

/-- The `x if x else "N/A"` guard of the final dictionary never yields the
empty string. -/
theorem mkRow_guard_ne_empty (x : String) : (if x = "" then "N/A" else x) ≠ "" := by
  by_cases hx : x = "" <;> simp [hx]

/-- `title or "N/A"` of a string-when-truthy value is a non-empty string. -/
theorem pyOr_na_nonempty {v : JVal} (h : strWhenTruthy v = true) :
    nonEmptyStrJ (pyOr v (.str "N/A")) := by
  rcases strWhenTruthy_cases h with ⟨s, rfl⟩ | hf
  · by_cases ht : truthy (JVal.str s) = true
    · exact ⟨s, by simp [pyOr, ht], by simpa [truthy] using ht⟩
    · exact ⟨"N/A", by simp [pyOr, ht], by decide⟩
  · exact ⟨"N/A", by simp [pyOr, hf], by decide⟩

/-- **C4 (counterexample).** On a mapping whose `related_links` is a
non-empty list headed by a non-mapping, `normalize_row` raises
(`AttributeError` from `links[0].get`) instead of returning a row. -/
theorem C4_counterexample :
    (normalize_row (fun _ => .obj []) c4badJob).1 = .error "AttributeError" := by decide

/-- **C4 (amended).** For every raw record whose title, company name,
location and via values are strings whenever truthy and whose
`related_links` (and every detail record's `apply_options`) is
link-well-formed, `normalize_row` returns a row in which title, company
name and location are non-empty strings, pay, time posted, apply link and
source are non-empty strings (with `"N/A"` substituted when undetermined),
and source is one of Indeed, LinkedIn, Glassdoor, ZipRecruiter or `"N/A"`. -/
theorem C4_normalize_fields (fetch : JVal → JVal) (job : List (String × JVal))
    (hd : ∀ id, wfDetails (fetch id) = true) (hj : wfJob job = true) :
    ∃ row fids, normalize_row fetch job = (.ok row, fids) ∧
      nonEmptyStrJ row.title ∧ nonEmptyStrJ row.company_name ∧ nonEmptyStrJ row.location ∧
      row.pay ≠ "" ∧ row.time_posted ≠ "" ∧ row.apply_link ≠ "" ∧ row.source ≠ "" ∧
      row.source ∈ (["Indeed", "LinkedIn", "Glassdoor", "ZipRecruiter", "N/A"] : List String) := by
  have hj5 := hj
  simp only [wfJob, Bool.and_eq_true] at hj5
  obtain ⟨⟨⟨⟨hjt, hjc⟩, hjl⟩, hjv⟩, hjr⟩ := hj5
  obtain ⟨sn, hsn, hsnmem⟩ := normalize_source_ok_of_wf hjv
  obtain ⟨link, hlink⟩ := safe_apply_link_ok_of_wf hjr
  have hsrc1 : (if sn = "" then "N/A" else sn) ≠ "" := mkRow_guard_ne_empty sn
  have hsrc2 : (if sn = "" then "N/A" else sn) ∈
      (["Indeed", "LinkedIn", "Glassdoor", "ZipRecruiter", "N/A"] : List String) := by
    by_cases hz : sn = ""
    · rw [if_pos hz]; decide
    · rw [if_neg hz]
      simp only [List.mem_cons, List.not_mem_nil, or_false] at hsnmem
      rcases hsnmem with h | h | h | h | h
      · subst h; decide
      · subst h; decide
      · subst h; decide
      · subst h; decide
      · exact absurd h hz
  unfold normalize_row
  rw [hsn, hlink]
  dsimp only
  by_cases hC : (pyOr (pyGet job "job_id") (.str "N/A") ≠ JVal.str "N/A" ∧
      (safe_pay job = "N/A" ∨ safe_time_posted job = "N/A" ∨ link = "N/A"))
  · rw [if_pos hC]
    by_cases hT : truthy (fetch (pyOr (pyGet job "job_id") (.str "N/A"))) = true
    · rw [if_pos hT]
      obtain ⟨t3, hE⟩ := enrich_ok (wfDetails_truthy_obj (hd _) hT)
        (safe_pay job) (safe_time_posted job) link
      rcases t3 with ⟨p2, t2, l2⟩
      rw [hE]
      dsimp only
      exact ⟨_, _, rfl, pyOr_na_nonempty hjt, pyOr_na_nonempty hjc, pyOr_na_nonempty hjl,
        mkRow_guard_ne_empty _, mkRow_guard_ne_empty _, mkRow_guard_ne_empty _, hsrc1, hsrc2⟩
    · rw [if_neg hT]
      exact ⟨_, _, rfl, pyOr_na_nonempty hjt, pyOr_na_nonempty hjc, pyOr_na_nonempty hjl,
        mkRow_guard_ne_empty _, mkRow_guard_ne_empty _, mkRow_guard_ne_empty _, hsrc1, hsrc2⟩
  · rw [if_neg hC]
    exact ⟨_, _, rfl, pyOr_na_nonempty hjt, pyOr_na_nonempty hjc, pyOr_na_nonempty hjl,
      mkRow_guard_ne_empty _, mkRow_guard_ne_empty _, mkRow_guard_ne_empty _, hsrc1, hsrc2⟩

/-- Witness for C4 (amended) at a concrete well-formed record. -/
theorem C4_normalize_fields_witness :
    ∃ row fids, normalize_row c4fetch c4job = (.ok row, fids) ∧
      nonEmptyStrJ row.title ∧ nonEmptyStrJ row.company_name ∧ nonEmptyStrJ row.location ∧
      row.pay ≠ "" ∧ row.time_posted ≠ "" ∧ row.apply_link ≠ "" ∧ row.source ≠ "" ∧
      row.source ∈ (["Indeed", "LinkedIn", "Glassdoor", "ZipRecruiter", "N/A"] : List String) := by
  have hdet : wfDetails (JVal.obj [("detected_extensions", .obj [("salary", .str "55k")])]) =
      true := by decide
  exact C4_normalize_fields c4fetch c4job (fun _ => hdet) (by decide)

/-! ## C9: the source of every exported row is one of the four names

The key step is that the substring checks of `is_allowed_source` (on the
lowered text) survive the extra `.strip()` that `normalize_source` applies:
a whitespace-free needle inside the lowered text lies inside the stripped
lowered text. -/

/-- `hasSub` as an explicit decomposition of the haystack. -/
theorem hasSub_decomp {hay needle : List Char} :
    hasSub hay needle = true ↔ ∃ a b, hay = a ++ (needle ++ b) := by
  unfold hasSub
  rw [List.any_eq_true]
  constructor
  · rintro ⟨t, ht, hp⟩
    obtain ⟨a, ha⟩ := (List.mem_tails t hay).mp ht
    obtain ⟨b, hb⟩ := List.isPrefixOf_iff_prefix.mp hp
    exact ⟨a, b, by rw [← ha, ← hb]⟩
  · rintro ⟨a, b, rfl⟩
    refine ⟨needle ++ b, (List.mem_tails _ _).mpr ⟨a, rfl⟩,
      List.isPrefixOf_iff_prefix.mpr ⟨b, rfl⟩⟩

/-- Lowering does not move a character in or out of the whitespace class the
strip cares about: whitespace characters are fixed by `toLower`. -/
theorem toLower_of_ws {c : Char} (h : c.isWhitespace = true) : c.toLower = c := by
  simp only [Char.isWhitespace, Bool.or_eq_true, decide_eq_true_eq] at h
  rcases h with ((h | h) | h) | h <;> subst h <;> decide

/-- Dropping a prefix cannot eat into a block headed by a character the
predicate rejects. -/
theorem dropWhile_append_middle (p : Char → Bool) (x : Char) (hx : p x = false)
    (a rest : List Char) :
    ∃ a2, List.dropWhile p (a ++ (x :: rest)) = a2 ++ (x :: rest) := by
  induction a with
  | nil => exact ⟨[], by simp [List.dropWhile_cons, hx]⟩
  | cons c a ih =>
    by_cases hc : p c = true
    · obtain ⟨a2, ha2⟩ := ih
      exact ⟨a2, by simp [List.dropWhile_cons, hc, ha2]⟩
    · exact ⟨c :: a, by simp [List.dropWhile_cons, hc]⟩

/-- A contiguous block whose first and last characters are not whitespace
survives `strip` intact. -/
theorem stripL_keeps_middle {x y : Char} {t t2 : List Char}
    (hx : x.isWhitespace = false) (hy : y.isWhitespace = false)
    (hrev : (x :: t).reverse = y :: t2) (a b : List Char) :
    ∃ a2 b2, stripL (a ++ ((x :: t) ++ b)) = a2 ++ ((x :: t) ++ b2) := by
  unfold stripL
  rw [show a ++ ((x :: t) ++ b) = a ++ (x :: (t ++ b)) from by simp]
  obtain ⟨a2, h1⟩ := dropWhile_append_middle Char.isWhitespace x hx a (t ++ b)
  rw [h1]
  have h2 : (a2 ++ (x :: (t ++ b))).reverse = b.reverse ++ (y :: (t2 ++ a2.reverse)) := by
    rw [show a2 ++ (x :: (t ++ b)) = (a2 ++ (x :: t)) ++ b from by simp]
    rw [List.reverse_append, List.reverse_append, hrev]
    simp
  rw [h2]
  obtain ⟨b2, h3⟩ := dropWhile_append_middle Char.isWhitespace y hy b.reverse (t2 ++ a2.reverse)
  rw [h3]
  refine ⟨a2, b2.reverse, ?_⟩
  rw [show b2 ++ (y :: (t2 ++ a2.reverse)) = (b2 ++ (y :: t2)) ++ a2.reverse from by simp]
  rw [List.reverse_append, List.reverse_reverse]
  have hb2 : (b2 ++ (y :: t2)).reverse = (x :: t) ++ b2.reverse := by
    rw [List.reverse_append, ← hrev, List.reverse_reverse]
  rw [hb2]

/-- A block of the image of `map f` is the image of a block. -/
theorem exists_preimage_block {f : Char → Char} {needle cs : List Char}
    (h : ∃ a b, List.map f cs = a ++ (needle ++ b)) :
    ∃ a m b, cs = a ++ (m ++ b) ∧ List.map f m = needle := by
  obtain ⟨a, b, hab⟩ := h
  obtain ⟨a0, rest, hcs, ha0, hrest⟩ := List.map_eq_append_iff.mp hab
  obtain ⟨m0, b0, hrest2, hm0, hb0⟩ := List.map_eq_append_iff.mp hrest
  exact ⟨a0, m0, b0, by rw [hcs, hrest2], hm0⟩

/-- A non-empty whitespace-free needle found in the lowered text is still
found in the stripped-then-lowered text. -/
theorem hasSub_lower_strip {needle : List Char} {v : String}
    (hne : needle ≠ [])
    (hws : ∀ c ∈ needle, c.isWhitespace = false)
    (h : hasSub (lowerL v.toList) needle = true) :
    hasSub (lowerL (stripL v.toList)) needle = true := by
  rw [hasSub_decomp] at h ⊢
  simp only [lowerL] at h
  obtain ⟨a, m, b, hcs, hm⟩ := exists_preimage_block h
  rcases m with _ | ⟨x, t⟩
  · exact absurd hm.symm (by simpa using hne)
  have hx : x.isWhitespace = false := by
    by_cases hxx : x.isWhitespace = true
    · have heq : Char.toLower x = x := toLower_of_ws hxx
      have hmem : Char.toLower x ∈ needle := by
        rw [← hm]; exact List.mem_map_of_mem _ (List.mem_cons_self _ _)
      have hfalse := hws _ hmem
      rw [heq] at hfalse
      rw [hfalse] at hxx
      cases hxx
    · simpa using hxx
  rcases hmr : (x :: t).reverse with _ | ⟨y, t2⟩
  · exact absurd hmr (by simp)
  have hy : y.isWhitespace = false := by
    have hymem : y ∈ x :: t := by
      rw [← List.mem_reverse, hmr]
      exact List.mem_cons_self _ _
    by_cases hyy : y.isWhitespace = true
    · have heq : Char.toLower y = y := toLower_of_ws hyy
      have hmem : Char.toLower y ∈ needle := by
        rw [← hm]; exact List.mem_map_of_mem _ hymem
      have hfalse := hws _ hmem
      rw [heq] at hfalse
      rw [hfalse] at hyy
      cases hyy
    · simpa using hyy
  obtain ⟨a2, b2, hstrip⟩ := stripL_keeps_middle hx hy hmr a b
  rw [hcs, hstrip]
  exact ⟨List.map Char.toLower a2, List.map Char.toLower b2, by
    simp [lowerL, ← hm]⟩

/-- An allowed `via` classifies to one of the four source names. -/
theorem allowed_source_classifies {via : JVal} (h : is_allowed_source via = .ok true) :
    ∃ sn, normalize_source via = .ok sn ∧
      sn ∈ (["Indeed", "LinkedIn", "Glassdoor", "ZipRecruiter"] : List String) := by
  unfold is_allowed_source at h
  rcases hvo : pyOr via (.str "") with _ | b | n | s | xs | kvs <;> rw [hvo] at h
  · exact absurd h (by simp)
  · exact absurd h (by simp)
  · exact absurd h (by simp)
  case str =>
    dsimp only at h
    injection h with h
    obtain ⟨needle, hmemn, hin⟩ := List.any_eq_true.mp h
    simp only [ALLOWED_SOURCES, List.mem_cons, List.not_mem_nil, or_false] at hmemn
    have hsome : strIn "indeed" (pyStripLower s) = true ∨
        strIn "linkedin" (pyStripLower s) = true ∨
        strIn "glassdoor" (pyStripLower s) = true ∨
        strIn "ziprecruiter" (pyStripLower s) = true := by
      rcases hmemn with rfl | rfl | rfl | rfl
      · have hin2 : hasSub (lowerL s.toList) "indeed".toList = true := hin
        exact Or.inl (hasSub_lower_strip (by decide) (by decide) hin2)
      · have hin2 : hasSub (lowerL s.toList) "linkedin".toList = true := hin
        exact Or.inr (Or.inl (hasSub_lower_strip (by decide) (by decide) hin2))
      · have hin2 : hasSub (lowerL s.toList) "glassdoor".toList = true := hin
        exact Or.inr (Or.inr (Or.inl (hasSub_lower_strip (by decide) (by decide) hin2)))
      · have hin2 : hasSub (lowerL s.toList) "ziprecruiter".toList = true := hin
        exact Or.inr (Or.inr (Or.inr (hasSub_lower_strip (by decide) (by decide) hin2)))
    unfold normalize_source
    rw [hvo]
    dsimp only
    by_cases h1 : strIn "indeed" (pyStripLower s) = true
    · rw [if_pos h1]; exact ⟨_, rfl, by decide⟩
    rw [if_neg h1]
    by_cases h2 : strIn "linkedin" (pyStripLower s) = true
    · rw [if_pos h2]; exact ⟨_, rfl, by decide⟩
    rw [if_neg h2]
    by_cases h3 : strIn "glassdoor" (pyStripLower s) = true
    · rw [if_pos h3]; exact ⟨_, rfl, by decide⟩
    rw [if_neg h3]
    by_cases h4 : strIn "ziprecruiter" (pyStripLower s) = true
    · rw [if_pos h4]; exact ⟨_, rfl, by decide⟩
    rcases hsome with h5 | h5 | h5 | h5
    · exact absurd h5 h1
    · exact absurd h5 h2
    · exact absurd h5 h3
    · exact absurd h5 h4
  · exact absurd h (by simp)
  · exact absurd h (by simp)

/-- A successful `normalize_row` carries the normalized source (with the
empty-string fallback) into the row. -/
theorem normalize_row_source {fetch : JVal → JVal} {job : List (String × JVal)}
    {row : Row} {fids : List JVal}
    (hn : normalize_row fetch job = (.ok row, fids)) :
    ∃ sn, normalize_source (pyGet job "via") = .ok sn ∧
      row.source = (if sn = "" then "N/A" else sn) := by
  unfold normalize_row at hn
  rcases hS : normalize_source (pyGet job "via") with e | sn <;> rw [hS] at hn <;>
    dsimp only at hn
  · exact absurd hn (by simp)
  refine ⟨sn, rfl, ?_⟩
  rcases hL : safe_apply_link job with e | link <;> rw [hL] at hn <;> dsimp only at hn
  · exact absurd hn (by simp)
  split at hn
  · split at hn
    · split at hn
      · exact absurd hn (by simp)
      · injection hn with h1 h2
        injection h1 with h1
        rw [← h1]
        rfl
    · injection hn with h1 h2
      injection h1 with h1
      rw [← h1]
      rfl
  · injection hn with h1 h2
    injection h1 with h1
    rw [← h1]
    rfl

/-- Every row a successful `gatherRows` collects comes from a successful,
`some`-producing `processJob`. -/
theorem gatherRows_mem {fetch : JVal → JVal} :
    ∀ {js : List JVal} {rows : List Row} {fids : List JVal},
      gatherRows fetch js = (.ok rows, fids) → ∀ r ∈ rows,
      ∃ j f1, processJob fetch j = (.ok (some r), f1) := by
  intro js
  induction js with
  | nil =>
    intro rows fids h r hr
    injection h with h1 h2
    injection h1 with h1
    rw [← h1] at hr
    cases hr
  | cons j js ih =>
    intro rows fids h r hr
    unfold gatherRows at h
    rcases hP : processJob fetch j with ⟨res, f⟩
    rw [hP] at h
    rcases res with e | o
    · exact absurd h (by simp)
    rcases o with _ | row0
    · rcases hG : gatherRows fetch js with ⟨r2, fs⟩
      rw [hG] at h
      dsimp only at h
      injection h with h1 h2
      rw [h1] at hG
      exact ih hG r hr
    · rcases hG : gatherRows fetch js with ⟨r2, fs⟩
      rw [hG] at h
      rcases r2 with e2 | rows2 <;> dsimp only at h
      · exact absurd h (by simp)
      · injection h with h1 h2
        injection h1 with h1
        rw [← h1] at hr
        rcases List.mem_cons.mp hr with rfl | hr2
        · exact ⟨j, f, hP⟩
        · exact ih hG r hr2

/-- `dedupe`'s output (when it succeeds) is drawn from its input. -/
theorem dedupeGo_sublist : ∀ (rows : List Row) (seen : List JVal) (out : List Row),
    dedupeGo seen rows = .ok out → out.Sublist rows := by
  intro rows
  induction rows with
  | nil =>
    intro seen out h
    injection h with h
    rw [← h]
  | cons r rest ih =>
    intro seen out h
    unfold dedupeGo at h
    rcases hk : dkey r with e | k <;> rw [hk] at h <;> dsimp only at h
    · exact absurd h (by simp)
    by_cases hm : k ∈ seen
    · rw [if_pos hm] at h
      exact (ih _ _ h).cons _
    · rw [if_neg hm] at h
      rcases hgo : dedupeGo (k :: seen) rest with e | out2 <;> rw [hgo] at h <;>
        dsimp only at h
      · exact absurd h (by simp)
      · injection h with h
        rw [← h]
        exact (ih _ _ hgo).cons₂ _

/-- A `some`-producing `processJob` only emits rows whose source is one of
the four allowed names. -/
theorem processJob_some_source {fetch : JVal → JVal} {j : JVal} {r : Row} {f1 : List JVal}
    (h : processJob fetch j = (.ok (some r), f1)) :
    r.source ∈ (["Indeed", "LinkedIn", "Glassdoor", "ZipRecruiter"] : List String) := by
  unfold processJob at h
  rcases j with _ | b | n | s | xs | kvs
  · exact absurd h (by simp)
  · exact absurd h (by simp)
  · exact absurd h (by simp)
  · exact absurd h (by simp)
  · exact absurd h (by simp)
  dsimp only at h
  rcases hA : is_allowed_source (pyGet kvs "via") with e | allowed <;> rw [hA] at h <;>
    dsimp only at h
  · exact absurd h (by simp)
  cases allowed
  · exact absurd h (by simp)
  cases hfood : looks_food_industry kvs
  · rw [hfood] at h
    exact absurd h (by simp)
  rw [hfood] at h
  rw [if_neg (by decide : ¬((!true) = true))] at h
  rw [if_neg (by decide : ¬((!true) = true))] at h
  rcases hN : normalize_row fetch kvs with ⟨res2, f2⟩
  rw [hN] at h
  rcases res2 with e | row0 <;> dsimp only at h
  · exact absurd h (by simp)
  injection h with h1 h2
  injection h1 with h1
  injection h1 with h1
  rw [h1] at hN
  obtain ⟨sn, hsn, hmem⟩ := allowed_source_classifies hA
  obtain ⟨sn2, hsn2, hsrc⟩ := normalize_row_source hN
  rw [hsn] at hsn2
  injection hsn2 with hsn2
  rw [hsrc, ← hsn2]
  have hne : sn ≠ "" := by
    simp only [List.mem_cons, List.not_mem_nil, or_false] at hmem
    rcases hmem with h5 | h5 | h5 | h5 <;> subst h5 <;> decide
  rw [if_neg hne]
  exact hmem

/-- **C9.** Every row in the batch a successful run exports has a source
equal to one of Indeed, LinkedIn, Glassdoor, ZipRecruiter — never `"N/A"` —
because rows are normalized only after passing the allow-list, and an
allowed `via` always classifies to a non-empty source name. -/
theorem C9_sources_in_enum (env : Env) (search : String → List JVal) (fetch : JVal → JVal)
    (rows : List Row) (calls : List NetCall)
    (h : mainRun env search fetch = (.ok rows, calls)) :
    ∀ r ∈ rows, r.source ∈ (["Indeed", "LinkedIn", "Glassdoor", "ZipRecruiter"] : List String) := by
  intro r hr
  unfold mainRun at h
  rcases hv : validate_env env with e | u <;> rw [hv] at h <;> dsimp only at h
  · exact absurd h (by simp)
  rcases hG : gatherRows fetch ((build_queries.map search).flatten) with ⟨res, fids⟩
  rw [hG] at h
  rcases res with e | rows0 <;> dsimp only at h
  · exact absurd h (by simp)
  rcases hD : dedupe rows0 with e | dd <;> rw [hD] at h <;> dsimp only at h
  · exact absurd h (by simp)
  injection h with h1 h2
  injection h1 with h1
  rw [← h1] at hr
  have hr2 : r ∈ keep7 dd := by simpa [sortRows] using hr
  have hr3 : r ∈ dd := List.mem_of_mem_filter hr2
  have hr4 : r ∈ rows0 := (dedupeGo_sublist rows0 [] dd hD).subset hr3
  obtain ⟨j, f1, hJ⟩ := gatherRows_mem hG r hr4
  exact processJob_some_source hJ

/-- Witness for C9: a run in which every query returns one fully populated
allowed job, instantiated at that job's exported row. -/
theorem C9_sources_in_enum_witness :
    c9row.source ∈ (["Indeed", "LinkedIn", "Glassdoor", "ZipRecruiter"] : List String) :=
  C9_sources_in_enum c2env (fun _ => [c9job]) (fun _ => .obj []) (sortRows (keep7 c9dd))
    c9calls rfl c9row (List.mem_mergeSort.mpr (by decide))

end JobBot
